import Mathlib

/-!
Shallow embedding of the three core mechanisms of the easy-mcp-gmail-tools
repository, translated from the Python sources:

  * the stateless confirmation-token protocol guarding the two deletion tools
    (src/tools/delete_draft.py, src/tools/delete_label.py),
  * the folder-label reconciliation of move and archive
    (src/tools/move_emails.py, src/tools/archive_emails.py),
  * the fail-open per-request credential guard
    (src/middleware/google/GoogleAuthMiddleware.py).

Python strings are modelled as Lean `String` (a list of unicode code points),
byte strings as `List Nat` with every element below 256, wall-clock time as a
`Nat` of epoch seconds, and Python dict results as association lists from the
literal keys appearing in the source to a small value type `JVal`.  External
collaborators (the Gmail API, the credential store, the token endpoint) are
modelled as explicit oracle inputs so that every branch of the source is
reachable in the embedding.
-/

/-! ### Base64 (model of Python base64.b64encode / b64decode)

The encoder is the standard RFC 4648 alphabet with `=` padding, working on a
byte list in chunks of three.  The decoder consumes chunks of four characters
and fails (returns `none`) on input that is not well-formed Base64; in the
Python source a decoding failure surfaces as an exception that the caller
catches and converts to the invalid-token result, so both sides agree on
every token the encoder can produce and on the rejection of malformed input.
-/

def b64Alphabet : List Char :=
  "ABCDEFGHIJKLMNOPQRSTUVWXYZabcdefghijklmnopqrstuvwxyz0123456789+/".data

/-- Character of the Base64 alphabet at index `i` (for `i < 64`). -/
def b64Char (i : Nat) : Char := b64Alphabet.getD i '?'

/-- Index of a character in the Base64 alphabet, `none` when absent. -/
def b64Index (c : Char) : Option Nat :=
  let i := b64Alphabet.indexOf c
  if i < 64 then some i else none

/-- Base64 encoding of a byte list, in chunks of three bytes. -/
def b64e : List Nat → List Char
  | [] => []
  | [a] => [b64Char (a / 4), b64Char (a % 4 * 16), '=', '=']
  | [a, b] => [b64Char (a / 4), b64Char (a % 4 * 16 + b / 16), b64Char (b % 16 * 4), '=']
  | a :: b :: c :: rest =>
    b64Char (a / 4) :: b64Char (a % 4 * 16 + b / 16) ::
      b64Char (b % 16 * 4 + c / 64) :: b64Char (c % 64) :: b64e rest

/-- Base64 decoding, in chunks of four characters; the final chunk may carry
one or two `=` padding characters. -/
def b64d : List Char → Option (List Nat)
  | [] => some []
  | w :: x :: y :: z :: rest =>
    match b64Index w, b64Index x with
    | some dw, some dx =>
      if y = '=' then
        if z = '=' ∧ rest = [] then some [dw * 4 + dx / 16] else none
      else
        match b64Index y with
        | some dy =>
          if z = '=' then
            if rest = [] then some [dw * 4 + dx / 16, dx % 16 * 16 + dy / 4] else none
          else
            match b64Index z with
            | some dz =>
              (b64d rest).map (fun r =>
                (dw * 4 + dx / 16) :: (dx % 16 * 16 + dy / 4) :: (dy % 4 * 64 + dz) :: r)
            | none => none
        | none => none
    | _, _ => none
  | _ => none

/-! ### UTF-8 (model of Python str.encode / bytes.decode) -/

/-- UTF-8 encoding of a single code point. -/
def utf8EncodeChar (c : Char) : List Nat :=
  let n := c.toNat
  if n < 0x80 then [n]
  else if n < 0x800 then [0xC0 + n / 64, 0x80 + n % 64]
  else if n < 0x10000 then [0xE0 + n / 4096, 0x80 + n / 64 % 64, 0x80 + n % 64]
  else [0xF0 + n / 262144, 0x80 + n / 4096 % 64, 0x80 + n / 64 % 64, 0x80 + n % 64]

/-- UTF-8 encoding of a string, as a byte list. -/
def utf8Encode (s : List Char) : List Nat := (s.map utf8EncodeChar).flatten

/-- Continuation-byte test of UTF-8. -/
def isCont (b : Nat) : Bool := decide (0x80 ≤ b ∧ b < 0xC0)

/-- First byte and tail of a byte list, when present. -/
def take1 : List Nat → Option (Nat × List Nat)
  | b :: r => some (b, r)
  | [] => none

/-- First two bytes and tail of a byte list, when present. -/
def take2 : List Nat → Option (Nat × Nat × List Nat)
  | b :: c :: r => some (b, c, r)
  | _ => none

/-- First three bytes and tail of a byte list, when present. -/
def take3 : List Nat → Option (Nat × Nat × Nat × List Nat)
  | b :: c :: d :: r => some (b, c, d, r)
  | _ => none

/-- Fuel-indexed UTF-8 decoder; every step consumes at least one byte, so
fuel equal to the length of the input (supplied by `utf8Decode`) always
suffices, and the out-of-fuel case is unreachable from `utf8Decode`. -/
def utf8DecodeAux : Nat → List Nat → Option (List Char)
  | _, [] => some []
  | 0, _ :: _ => none
  | fuel + 1, b :: rest =>
    if b < 0x80 then
      (utf8DecodeAux fuel rest).map (fun cs => Char.ofNat b :: cs)
    else if b < 0xC0 then none
    else if b < 0xE0 then
      match take1 rest with
      | some (b2, rest2) =>
        if isCont b2 then
          (utf8DecodeAux fuel rest2).map (fun cs => Char.ofNat ((b - 0xC0) * 64 + (b2 - 0x80)) :: cs)
        else none
      | none => none
    else if b < 0xF0 then
      match take2 rest with
      | some (b2, b3, rest3) =>
        if isCont b2 ∧ isCont b3 then
          (utf8DecodeAux fuel rest3).map (fun cs =>
            Char.ofNat ((b - 0xE0) * 4096 + (b2 - 0x80) * 64 + (b3 - 0x80)) :: cs)
        else none
      | none => none
    else
      match take3 rest with
      | some (b2, b3, b4, rest4) =>
        if isCont b2 ∧ isCont b3 ∧ isCont b4 then
          (utf8DecodeAux fuel rest4).map (fun cs =>
            Char.ofNat ((b - 0xF0) * 262144 + (b2 - 0x80) * 4096 + (b3 - 0x80) * 64 + (b4 - 0x80)) :: cs)
        else none
      | none => none

/-- UTF-8 decoding of a byte list; `none` on a malformed sequence (in the
Python source the decoding exception is caught by the caller). -/
def utf8Decode (l : List Nat) : Option (List Char) := utf8DecodeAux l.length l

/-! ### Decimal digits (model of Python f-string rendering and int parsing) -/

/-- Decimal digit character for `d < 10`. -/
def digitChar (d : Nat) : Char := Char.ofNat (48 + d)

/-- Fuel-indexed decimal rendering; the fuel only needs to exceed the number
of digits, and `natDigits` supplies `n + 1` which always suffices. -/
def natDigitsAux : Nat → Nat → List Char
  | 0, _ => []
  | fuel + 1, n =>
    if n < 10 then [digitChar n]
    else natDigitsAux fuel (n / 10) ++ [digitChar (n % 10)]

/-- Decimal rendering of a natural number, as Python str(int) produces it. -/
def natDigits (n : Nat) : List Char := natDigitsAux (n + 1) n

/-- Accumulating decimal parser over a character list; fails on the first
character that is not a decimal digit. -/
def parseNatGo : List Char → Nat → Option Nat
  | [], acc => some acc
  | c :: rest, acc =>
    if 48 ≤ c.toNat ∧ c.toNat ≤ 57 then parseNatGo rest (acc * 10 + (c.toNat - 48))
    else none

/-- Model of Python int(s) restricted to non-negative decimal literals; the
empty string fails, as int of an empty string raises. -/
def parseNat (cs : List Char) : Option Nat :=
  if cs = [] then none else parseNatGo cs 0

/-! ### Splitting on the separator (model of Python str.split on a colon) -/

/-- Model of Python split with separator colon: returns the maximal list of
colon-free segments, one more segment than there are colons. -/
def splitColon : List Char → List (List Char)
  | [] => [[]]
  | c :: rest =>
    if c = ':' then [] :: splitColon rest
    else
      match splitColon rest with
      | g :: gs => (c :: g) :: gs
      | [] => [[c]]

/-! ### Confirmation-token protocol
(src/tools/delete_draft.py lines 13-14 and 110-141,
 src/tools/delete_label.py lines 13-14 and 67-107) -/

/-- Confirmation token validity in seconds (5 minutes in the source). -/
def CONFIRMATION_TOKEN_VALIDITY_DURATION : Nat := 5 * 60

/-- Token minting: Base64 of the UTF-8 bytes of `resourceId ++ colon ++
str(now)`, exactly the params string of the source. -/
def encodeToken (resourceId : String) (now : Nat) : String :=
  String.mk (b64e (utf8Encode (resourceId.data ++ ':' :: natDigits now)))

/-- Token decoding: Base64 decode, UTF-8 decode, split on the colon into
exactly two fields, and parse the second as an integer.  Every failure mode
corresponds to an exception of the source decode block, which the caller
catches and converts to the invalid-token result. -/
def decodeToken (tok : String) : Option (String × Nat) :=
  match b64d tok.data with
  | none => none
  | some bytes =>
    match utf8Decode bytes with
    | none => none
    | some s =>
      match splitColon s with
      | [idPart, tsPart] =>
        match parseNat tsPart with
        | some ts => some (String.mk idPart, ts)
        | none => none
      | _ => none

/-! ### Result dictionaries -/

/-- Values of the result dictionaries returned by the tools: strings and
nested dictionaries are the only shapes the sources produce. -/
inductive JVal where
  | s : String → JVal
  | obj : List (String × JVal) → JVal

/-- Result dictionary: association list of string keys to values. -/
abbrev Dict := List (String × JVal)

/-- First value bound to a key, `none` when the key is absent; the sources
build every dictionary with distinct keys. -/
def getKey : Dict → String → Option JVal
  | [], _ => none
  | (k, v) :: rest, key => if k = key then some v else getKey rest key

/-- Status field of a result dictionary. -/
def statusOf (d : Dict) : Option JVal := getKey d "status"

/-! ### AuthSessionGuard
(src/middleware/google/GoogleAuthMiddleware.py) -/

/-- Per-request authentication context: the two keys the middleware stores in
the process-wide state, read back by check_access. -/
structure AuthCtx where
  is_authenticated : Bool
  error_message : Option String

/-- Record returned by the credential store; the middleware only inspects
whether the dictionary carries an error key before handing the nested
credentials to the parser (modelled by the separate parse oracle). -/
structure StoredCred where
  hasErrorKey : Bool

/-- Parsed credential object, with the three attributes the middleware
reads: valid, expired, and the optional refresh token. -/
structure ParsedCreds where
  valid : Bool
  expired : Bool
  refresh_token : Option String

/-- New credential object obtained from the token-endpoint exchange; the
middleware reads its access token (and passes its identity assertion to the
verifier, modelled by the separate verify oracle). -/
structure RefreshedCreds where
  token : String

/-- Oracles for one middleware run: the request header and the outcome of
every external call, where `Except.error` models a raised exception. -/
structure AuthEnv where
  header : Option String
  getCredentials : Except Unit StoredCred
  parse : Except Unit ParsedCreds
  refreshExchange : Except Unit RefreshedCreds
  verify : Except Unit String
  updateToken : Except Unit Unit
  authCallback : Except Unit Unit

/-- Terminal states of one middleware run, following the branch structure of
dispatch; outerException is the outermost catch-all handler. -/
inductive AuthState where
  | noTokenHeader
  | storeLookupFailed
  | credentialMissing
  | parseFailed
  | refreshFailed
  | invalidUnrefreshable
  | valid
  | outerException
deriving DecidableEq

/-- Observable outcome of one middleware run: the published context, whether
the request was forwarded downstream, the credential-store writes performed,
whether the capability callback completed, and the terminal state. -/
structure DispatchOut where
  ctx : AuthCtx
  forwarded : Bool
  storeWrites : List (String × String)
  capabilityPublished : Bool
  state : AuthState

/-- Remediation message stored when the access-token header is missing. -/
def msgNoToken : String :=
  "X-ACCESS-TOKEN is a required header parameter. Please go to /auth/login to get the required paramaters."

/-- Message stored on store-lookup, missing-credential and refresh failures. -/
def msgAuthAgain : String :=
  "There has been an error with authenticating, please go to /auth/login and authenticate again"

/-- Message stored when the credential is invalid and cannot be refreshed. -/
def msgDeauth : String :=
  "There has been an error with authenticating, please deauthenticate the app and go to /auth/login"

/-- Message stored by the outermost exception handler. -/
def msgOuter : String :=
  "There has been an error with authenticating, please go to /auth/login to authenticate"

/-- Tail of dispatch shared by the valid and refreshed paths: invoke the
capability callback, then mark the context authenticated; a callback
exception falls through to the outermost handler. -/
def finishValid (env : AuthEnv) (ctx : AuthCtx) (writes : List (String × String)) : DispatchOut :=
  match env.authCallback with
  | .error _ => ⟨{ ctx with error_message := some msgOuter }, true, writes, false, .outerException⟩
  | .ok _ => ⟨{ ctx with is_authenticated := true }, true, writes, true, .valid⟩

/-- Model of GoogleAuthMiddleware.dispatch.  The run starts by clearing the
authenticated flag of the incoming context (the source never clears the
error-message key, so a stale message survives untouched branches), then
walks the branch structure of the source; every branch forwards the request
downstream. -/
def dispatch (env : AuthEnv) (ctx0 : AuthCtx) : DispatchOut :=
  let ctx : AuthCtx := { ctx0 with is_authenticated := false }
  match env.header with
  | none =>
    ⟨{ ctx with error_message := some msgNoToken }, true, [], false, .noTokenHeader⟩
  | some _ =>
    match env.getCredentials with
    | .error _ =>
      ⟨{ ctx with error_message := some msgAuthAgain }, true, [], false, .storeLookupFailed⟩
    | .ok cred =>
      if cred.hasErrorKey then
        ⟨{ ctx with error_message := some msgAuthAgain }, true, [], false, .credentialMissing⟩
      else
        match env.parse with
        | .error _ =>
          ⟨ctx, true, [], false, .parseFailed⟩
        | .ok creds =>
          if creds.valid then
            finishValid env ctx []
          else if creds.expired ∧ creds.refresh_token.isSome then
            match env.refreshExchange with
            | .error _ =>
              ⟨{ ctx with error_message := some msgAuthAgain }, true, [], false, .refreshFailed⟩
            | .ok newCreds =>
              match env.verify with
              | .error _ =>
                ⟨{ ctx with error_message := some msgAuthAgain }, true, [], false, .refreshFailed⟩
              | .ok sub =>
                match env.updateToken with
                | .error _ =>
                  ⟨{ ctx with error_message := some msgAuthAgain }, true, [], false, .refreshFailed⟩
                | .ok _ =>
                  finishValid env ctx [(sub, newCreds.token)]
          else
            ⟨{ ctx with error_message := some msgDeauth }, true, [], false, .invalidUnrefreshable⟩

/-- Model of check_access with returnJsonOnError set to true, the only form
the tools call: a dictionary with the stored error message (falling back to
the built-in default) when unauthenticated, `none` when authenticated. -/
def check_access (ctx : AuthCtx) : Option Dict :=
  if ctx.is_authenticated then none
  else
    some [("status", JVal.s "error"),
          ("error", JVal.s (ctx.error_message.getD "User is not authenticated."))]

/-! ### Guarded deletion tools
(src/tools/delete_draft.py, src/tools/delete_label.py) -/

/-- Outcome of the external per-resource delete call: success, an HttpError
with the extracted message, or any other exception. -/
inductive DeleteOutcome where
  | ok
  | httpError : String → DeleteOutcome
  | unexpected : String → DeleteOutcome

/-- Observable outcome of one deletion-tool call: the returned dictionary and
whether the external delete call was issued. -/
structure ToolRun where
  result : Dict
  deleted : Bool

/-- Message returned when the Gmail service is absent from global state. -/
def msgScopeMissing : String :=
  "Gmail permission scope not available, please add this scope here: /auth/login"

/-- Model of gmail_delete_draft_tool.  The service argument is `none` when
the Gmail service is missing from global state, otherwise it carries the
outcome the external delete call would have.  A `none` or empty confirmation
token is falsy in Python and takes the minting branch. -/
def gmail_delete_draft_tool (ctx : AuthCtx) (svc : Option DeleteOutcome)
    (draft_id : String) (confirmation_token : Option String) (now : Nat) : ToolRun :=
  match check_access ctx with
  | some d => ⟨d, false⟩
  | none =>
    match svc with
    | none => ⟨[("status", JVal.s "error"), ("error", JVal.s msgScopeMissing)], false⟩
    | some del =>
      if confirmation_token.getD "" = "" then
        ⟨[("message", JVal.s ("Confirmation required to delete draft with ID " ++ draft_id ++
            ". Use the confirmation_token to confirm deletion.")),
          ("confirmation_token", JVal.s (encodeToken draft_id now)),
          ("action", JVal.s "confirm_deletion")], false⟩
      else
        match decodeToken (confirmation_token.getD "") with
        | none => ⟨[("error", JVal.s "Invalid confirmation token.")], false⟩
        | some (token_draft_id, token_timestamp) =>
          if now - token_timestamp > CONFIRMATION_TOKEN_VALIDITY_DURATION then
            ⟨[("error", JVal.s "Confirmation token has expired. Please request a new token.")], false⟩
          else if token_draft_id ≠ draft_id then
            ⟨[("error", JVal.s "Invalid confirmation token. Parameters do not match."),
              ("details", JVal.obj
                [("token_params", JVal.obj [("draft_id", JVal.s token_draft_id)]),
                 ("request_params", JVal.obj [("draft_id", JVal.s draft_id)])])], false⟩
          else
            match del with
            | .ok =>
              ⟨[("status", JVal.s "success"), ("message", JVal.s "Draft deleted successfully.")], true⟩
            | .httpError m => ⟨[("status", JVal.s "error"), ("error", JVal.s m)], true⟩
            | .unexpected m =>
              ⟨[("status", JVal.s "error"), ("error", JVal.s ("Unexpected error: " ++ m))], true⟩

/-- Model of gmail_delete_label_tool; identical control flow with the label
wording of its messages. -/
def gmail_delete_label_tool (ctx : AuthCtx) (svc : Option DeleteOutcome)
    (label_id : String) (confirmation_token : Option String) (now : Nat) : ToolRun :=
  match check_access ctx with
  | some d => ⟨d, false⟩
  | none =>
    match svc with
    | none => ⟨[("status", JVal.s "error"), ("error", JVal.s msgScopeMissing)], false⟩
    | some del =>
      if confirmation_token.getD "" = "" then
        ⟨[("message", JVal.s ("Confirmation required to delete label with ID " ++ label_id ++
            ", confirm deletion with user and use the given confirmation_token with the same request parameters.")),
          ("confirmation_token", JVal.s (encodeToken label_id now)),
          ("action", JVal.s "confirm_deletion")], false⟩
      else
        match decodeToken (confirmation_token.getD "") with
        | none => ⟨[("error", JVal.s "Invalid confirmation token.")], false⟩
        | some (token_label_id, token_timestamp) =>
          if now - token_timestamp > CONFIRMATION_TOKEN_VALIDITY_DURATION then
            ⟨[("error", JVal.s "Confirmation token has expired. Please request a new token.")], false⟩
          else if token_label_id ≠ label_id then
            ⟨[("error", JVal.s "Invalid confirmation token. Parameters do not match, please request a new token."),
              ("details", JVal.obj
                [("token_params", JVal.obj [("label_id", JVal.s token_label_id)]),
                 ("request_params", JVal.obj [("label_id", JVal.s label_id)])])], false⟩
          else
            match del with
            | .ok =>
              ⟨[("status", JVal.s "success"), ("message", JVal.s "Label deleted successfully.")], true⟩
            | .httpError m => ⟨[("status", JVal.s "error"), ("error", JVal.s m)], true⟩
            | .unexpected m =>
              ⟨[("status", JVal.s "error"), ("error", JVal.s ("Unexpected error: " ++ m))], true⟩

/-! ### Folder-label reconciliation
(src/tools/move_emails.py, src/tools/archive_emails.py) -/

/-- One entry of the label catalog returned by the Gmail API, with the three
fields the tools read. -/
structure GmailLabel where
  id : String
  name : String
  ltype : String

/-- The fixed system allow-list of folder labels of both tools (SENT is
commented out in the source and replaced by the vendor alias). -/
def systemFolderLabels : List String :=
  ["INBOX", "DRAFT", "TRASH", "SPAM", "CHAT", "[Imap]/Sent"]

/-- Folder-label ids: ids of catalog entries that are system labels on the
allow-list or user labels. -/
def folderIdsOf (labels : List GmailLabel) : List String :=
  (labels.filter (fun l =>
    decide ((l.ltype = "system" ∧ l.name ∈ systemFolderLabels) ∨ l.ltype = "user"))).map (·.id)

/-- Name-to-id lookup of the label catalog; a Python dict comprehension lets
the last entry of a duplicated name win, hence the recursion prefers the
tail. -/
def nameToId (labels : List GmailLabel) (name : String) : Option String :=
  match labels with
  | [] => none
  | l :: rest =>
    match nameToId rest name with
    | some i => some i
    | none => if l.name = name then some l.id else none

/-- State of the external Gmail service visible to the two tools: the label
catalog and, per message id, the current label ids.  A message id absent
from the list models the per-message HttpError of the source (the get or
modify call failing for that id). -/
structure GmailSvc where
  labels : List GmailLabel
  msgs : List (String × List String)

/-- Current label ids of a message, `none` when the per-message call fails. -/
def findMsg : List (String × List String) → String → Option (List String)
  | [], _ => none
  | (k, v) :: rest, mid => if k = mid then some v else findMsg rest mid

/-- Replace the label ids stored for one message id. -/
def updateMsg : List (String × List String) → String → List String → List (String × List String)
  | [], _, _ => []
  | (k, v) :: rest, mid, labels =>
    (if k = mid then (k, labels) else (k, v)) :: updateMsg rest mid labels

/-- Effect of one users.messages.modify call on a label set: labels in
removeLabelIds leave, labels in addLabelIds join. -/
def applyModify (labels removeIds addIds : List String) : List String :=
  labels.filter (fun l => decide (l ∉ removeIds)) ++ addIds

/-- The labels_to_remove list of the move tool: current folder labels other
than the target. -/
def moveRemove (fIds : List String) (tid : String) (cur : List String) : List String :=
  cur.filter (fun l => decide (l ∈ fIds ∧ l ≠ tid))

/-- Label set of a message after the modify call of the move tool. -/
def moveApply (fIds : List String) (tid : String) (cur : List String) : List String :=
  applyModify cur (moveRemove fIds tid cur) [tid]

/-- The labels_to_remove list of the archive tool: every current folder
label. -/
def archiveRemove (fIds : List String) (cur : List String) : List String :=
  cur.filter (fun l => decide (l ∈ fIds))

/-- Label set of a message after the modify call of the archive tool. -/
def archiveApply (fIds : List String) (cur : List String) : List String :=
  applyModify cur (archiveRemove fIds cur) []

/-- One label-modify request issued against the Gmail API. -/
structure ModifyCall where
  id : String
  removeLabelIds : List String
  addLabelIds : List String

/-- Observable outcome of one move or archive call: the returned dictionary,
the resulting per-message label state, and the modify calls issued in
order. -/
structure MoveRun where
  result : Dict
  msgs : List (String × List String)
  calls : List ModifyCall

/-- Error dictionary returned when the per-message get or modify call fails;
the reason string is the canonical Gmail not-found message. -/
def errModify (mid : String) : Dict :=
  [("status", JVal.s "error"),
   ("error", JVal.s ("Failed to modify email " ++ mid ++ ": Requested entity was not found."))]

/-- Success dictionary of the move tool. -/
def moveSuccess (labelName : String) : Dict :=
  [("status", JVal.s "success"),
   ("message", JVal.s ("Email(s) successfully moved to " ++ labelName))]

/-- Per-message loop of the move tool: fetch the current labels of each id in
order, remove every folder label other than the target, add the target, and
abort on the first per-message failure. -/
def processMove (fIds : List String) (targetId labelName : String) :
    List String → List (String × List String) → List ModifyCall → MoveRun
  | [], msgs, calls => ⟨moveSuccess labelName, msgs, calls⟩
  | mid :: rest, msgs, calls =>
    match findMsg msgs mid with
    | none => ⟨errModify mid, msgs, calls⟩
    | some current =>
      processMove fIds targetId labelName rest
        (updateMsg msgs mid (moveApply fIds targetId current))
        (calls ++ [⟨mid, moveRemove fIds targetId current, [targetId]⟩])

/-- Model of gmail_move_emails_tool: authentication gate, service gate, one
catalog fetch, unknown-label gate, then the sequential per-message loop. -/
def gmail_move_emails_tool (ctx : AuthCtx) (svc : Option GmailSvc)
    (message_ids : List String) (new_folder_label : String) : MoveRun :=
  match check_access ctx with
  | some d => ⟨d, (svc.map (·.msgs)).getD [], []⟩
  | none =>
    match svc with
    | none => ⟨[("status", JVal.s "error"), ("error", JVal.s msgScopeMissing)], [], []⟩
    | some g =>
      match nameToId g.labels new_folder_label with
      | none =>
        ⟨[("status", JVal.s "error"),
          ("error", JVal.s ("Label " ++ new_folder_label ++ " not found."))], g.msgs, []⟩
      | some targetId =>
        processMove (folderIdsOf g.labels) targetId new_folder_label message_ids g.msgs []

/-- Success dictionary of the archive tool. -/
def archiveSuccess : Dict :=
  [("status", JVal.s "success"),
   ("message", JVal.s "Email(s) successfully had all labels removed.")]

/-- Per-message loop of the archive tool: remove every folder label of each
id in order, add none, and abort on the first per-message failure. -/
def processArchive (fIds : List String) :
    List String → List (String × List String) → List ModifyCall → MoveRun
  | [], msgs, calls => ⟨archiveSuccess, msgs, calls⟩
  | mid :: rest, msgs, calls =>
    match findMsg msgs mid with
    | none => ⟨errModify mid, msgs, calls⟩
    | some current =>
      processArchive fIds rest
        (updateMsg msgs mid (archiveApply fIds current))
        (calls ++ [⟨mid, archiveRemove fIds current, []⟩])

/-- Model of gmail_archive_emails_tool: authentication gate, service gate,
one catalog fetch, then the sequential per-message loop (no target, hence no
unknown-label gate). -/
def gmail_archive_emails_tool (ctx : AuthCtx) (svc : Option GmailSvc)
    (message_ids : List String) : MoveRun :=
  match check_access ctx with
  | some d => ⟨d, (svc.map (·.msgs)).getD [], []⟩
  | none =>
    match svc with
    | none => ⟨[("status", JVal.s "error"), ("error", JVal.s msgScopeMissing)], [], []⟩
    | some g =>
      processArchive (folderIdsOf g.labels) message_ids g.msgs []

/-! ### Round-trip lemmas for the token encoding -/

/-- Behaviour of the guarded draft deletion across one full token round
trip: mint at t0, execute at t0 + 60, expire at t0 + 301, mismatch on a
different draft id at t0 + 60. -/
def TokenRoundTripDraft (ctx : AuthCtx) (del : DeleteOutcome) (rid rid2 : String) (t0 : Nat) : Prop :=
  getKey (gmail_delete_draft_tool ctx (some del) rid none t0).result "confirmation_token"
      = some (JVal.s (encodeToken rid t0)) ∧
  getKey (gmail_delete_draft_tool ctx (some del) rid none t0).result "action"
      = some (JVal.s "confirm_deletion") ∧
  (gmail_delete_draft_tool ctx (some del) rid none t0).deleted = false ∧
  (gmail_delete_draft_tool ctx (some del) rid (some (encodeToken rid t0)) (t0 + 60)).deleted = true ∧
  (gmail_delete_draft_tool ctx (some del) rid (some (encodeToken rid t0)) (t0 + 301)).result
      = [("error", JVal.s "Confirmation token has expired. Please request a new token.")] ∧
  (gmail_delete_draft_tool ctx (some del) rid (some (encodeToken rid t0)) (t0 + 301)).deleted = false ∧
  (gmail_delete_draft_tool ctx (some del) rid2 (some (encodeToken rid t0)) (t0 + 60)).result
      = [("error", JVal.s "Invalid confirmation token. Parameters do not match."),
         ("details", JVal.obj [("token_params", JVal.obj [("draft_id", JVal.s rid)]),
                               ("request_params", JVal.obj [("draft_id", JVal.s rid2)])])] ∧
  (gmail_delete_draft_tool ctx (some del) rid2 (some (encodeToken rid t0)) (t0 + 60)).deleted = false

/-- Behaviour of the guarded label deletion across the same round trip. -/
def TokenRoundTripLabel (ctx : AuthCtx) (del : DeleteOutcome) (rid rid2 : String) (t0 : Nat) : Prop :=
  getKey (gmail_delete_label_tool ctx (some del) rid none t0).result "confirmation_token"
      = some (JVal.s (encodeToken rid t0)) ∧
  getKey (gmail_delete_label_tool ctx (some del) rid none t0).result "action"
      = some (JVal.s "confirm_deletion") ∧
  (gmail_delete_label_tool ctx (some del) rid none t0).deleted = false ∧
  (gmail_delete_label_tool ctx (some del) rid (some (encodeToken rid t0)) (t0 + 60)).deleted = true ∧
  (gmail_delete_label_tool ctx (some del) rid (some (encodeToken rid t0)) (t0 + 301)).result
      = [("error", JVal.s "Confirmation token has expired. Please request a new token.")] ∧
  (gmail_delete_label_tool ctx (some del) rid (some (encodeToken rid t0)) (t0 + 301)).deleted = false ∧
  (gmail_delete_label_tool ctx (some del) rid2 (some (encodeToken rid t0)) (t0 + 60)).result
      = [("error", JVal.s "Invalid confirmation token. Parameters do not match, please request a new token."),
         ("details", JVal.obj [("token_params", JVal.obj [("label_id", JVal.s rid)]),
                               ("request_params", JVal.obj [("label_id", JVal.s rid2)])])] ∧
  (gmail_delete_label_tool ctx (some del) rid2 (some (encodeToken rid t0)) (t0 + 60)).deleted = false

/-- Behaviour of both guarded deletions when the resource id contains the
separator character: the freshly minted token, passed straight back with
the identical resource id, is rejected as an invalid confirmation token and
the deletion is never reached. -/
def ColonSeparatorBreak (ctx : AuthCtx) (del : DeleteOutcome) (rid : String) (t0 dt : Nat) : Prop :=
  (gmail_delete_draft_tool ctx (some del) rid (some (encodeToken rid t0)) (t0 + dt)).result
      = [("error", JVal.s "Invalid confirmation token.")] ∧
  (gmail_delete_draft_tool ctx (some del) rid (some (encodeToken rid t0)) (t0 + dt)).deleted = false ∧
  (gmail_delete_label_tool ctx (some del) rid (some (encodeToken rid t0)) (t0 + dt)).result
      = [("error", JVal.s "Invalid confirmation token.")] ∧
  (gmail_delete_label_tool ctx (some del) rid (some (encodeToken rid t0)) (t0 + dt)).deleted = false

/-- Result shape actually produced by the guarded deletion tools: a status
field of success or error, or the confirmation-phase dictionary, or a
status-free dictionary carrying only an error message (the expired,
mismatched and invalid token failures). -/
def UniformShape (r : Dict) : Prop :=
  statusOf r = some (JVal.s "success") ∨
  statusOf r = some (JVal.s "error") ∨
  (getKey r "confirmation_token" ≠ none ∧
   getKey r "action" = some (JVal.s "confirm_deletion") ∧
   getKey r "message" ≠ none) ∨
  (statusOf r = none ∧ getKey r "error" ≠ none)

/-- Environment of the C5 witness: expired credential with a refresh token,
every external call succeeding. -/
def refreshEnv : AuthEnv :=
  ⟨some "tok", Except.ok ⟨false⟩, Except.ok ⟨false, true, some "rt"⟩,
   Except.ok ⟨"newTok"⟩, Except.ok "subj", Except.ok (), Except.ok ()⟩

/-- Environment whose stored record is present but fails credential
parsing: the run ends in the parseFailed state. -/
def parseFailEnv : AuthEnv :=
  ⟨some "tok", Except.ok ⟨false⟩, Except.error (),
   Except.ok ⟨"newTok"⟩, Except.ok "subj", Except.ok (), Except.ok ()⟩

/-- Outcome of a degraded middleware run: the request is forwarded, the
context is left unauthenticated, a context error message is present in
every non-valid state except parseFailed, the parseFailed state leaves the
incoming message untouched, and the access gate of the next operation
surfaces the stored message, or its built-in default when none is stored. -/
def DegradedRunStillServes (env : AuthEnv) (ctx0 : AuthCtx) : Prop :=
  (dispatch env ctx0).forwarded = true ∧
  (dispatch env ctx0).ctx.is_authenticated = false ∧
  ((dispatch env ctx0).state ≠ AuthState.parseFailed →
      (dispatch env ctx0).ctx.error_message.isSome = true) ∧
  ((dispatch env ctx0).state = AuthState.parseFailed →
      (dispatch env ctx0).ctx.error_message = ctx0.error_message) ∧
  check_access (dispatch env ctx0).ctx =
    some [("status", JVal.s "error"),
          ("error", JVal.s ((dispatch env ctx0).ctx.error_message.getD "User is not authenticated."))]

/-- Environment of the C7 witness: the credential store lookup raises, so
the run ends in storeLookupFailed. -/
def storeFailEnv : AuthEnv :=
  ⟨some "tok", Except.error (), Except.ok ⟨true, false, none⟩,
   Except.ok ⟨"newTok"⟩, Except.ok "subj", Except.ok (), Except.ok ()⟩

/-- The folder-label intersection of a label set is exactly the target. -/
def FolderExactly (fIds : List String) (tid : String) (L : List String) : Prop :=
  ∀ l, (l ∈ L ∧ l ∈ fIds) ↔ l = tid

/-- The label set carries no folder label at all. -/
def FolderFree (fIds : List String) (L : List String) : Prop :=
  ∀ l ∈ L, l ∉ fIds

/-- Label catalog of the concrete witnesses: INBOX and TRASH are system
folders, IMPORTANT is a system non-folder label. -/
def demoLabels : List GmailLabel :=
  [⟨"L_INBOX", "INBOX", "system"⟩, ⟨"L_IMP", "IMPORTANT", "system"⟩, ⟨"L_TRASH", "TRASH", "system"⟩]

/-- Mailbox of the concrete witnesses: m1 sits in TRASH and is IMPORTANT,
m2 sits in INBOX and is IMPORTANT. -/
def demoSvc : GmailSvc :=
  ⟨demoLabels, [("m1", ["L_TRASH", "L_IMP"]), ("m2", ["L_INBOX", "L_IMP"])]⟩

/-- Outcome of applying the move tool twice with the same batch and target:
both runs succeed, after each run every message of the batch has folder
intersection exactly the target, and every modify call of the second run
carries an empty removal list. -/
def MoveIdempotent (ctx : AuthCtx) (g : GmailSvc) (ids : List String) (name tid : String) : Prop :=
  statusOf (gmail_move_emails_tool ctx (some g) ids name).result = some (JVal.s "success") ∧
  statusOf (gmail_move_emails_tool ctx
      (some ⟨g.labels, (gmail_move_emails_tool ctx (some g) ids name).msgs⟩) ids name).result
    = some (JVal.s "success") ∧
  (∀ mid ∈ ids, ∃ L, findMsg (gmail_move_emails_tool ctx (some g) ids name).msgs mid = some L ∧
      FolderExactly (folderIdsOf g.labels) tid L) ∧
  (∀ mid ∈ ids, ∃ L, findMsg (gmail_move_emails_tool ctx
      (some ⟨g.labels, (gmail_move_emails_tool ctx (some g) ids name).msgs⟩) ids name).msgs mid
        = some L ∧
      FolderExactly (folderIdsOf g.labels) tid L) ∧
  (∀ c ∈ (gmail_move_emails_tool ctx
      (some ⟨g.labels, (gmail_move_emails_tool ctx (some g) ids name).msgs⟩) ids name).calls,
      c.removeLabelIds = [])

/-- Behaviour of both batch tools on a list whose first failing id is bad:
the returned result is that failure, exactly one call per id of the
preceding prefix was issued in list order, ids outside the prefix get no
call and keep their labels, and a batch reports success exactly when every
one of its ids is found. -/
def BatchAbortsOnFirstFailure (ctx : AuthCtx) (g : GmailSvc) (name : String)
    (pre : List String) (bad : String) (post : List String) : Prop :=
  (gmail_move_emails_tool ctx (some g) (pre ++ bad :: post) name).result = errModify bad ∧
  (gmail_move_emails_tool ctx (some g) (pre ++ bad :: post) name).calls.map (fun c => c.id) = pre ∧
  (∀ i, i ∉ pre →
    (∀ c ∈ (gmail_move_emails_tool ctx (some g) (pre ++ bad :: post) name).calls, c.id ≠ i) ∧
    findMsg (gmail_move_emails_tool ctx (some g) (pre ++ bad :: post) name).msgs i = findMsg g.msgs i) ∧
  (∀ ids, statusOf (gmail_move_emails_tool ctx (some g) ids name).result = some (JVal.s "success") ↔
    ∀ i ∈ ids, (findMsg g.msgs i).isSome = true) ∧
  (gmail_archive_emails_tool ctx (some g) (pre ++ bad :: post)).result = errModify bad ∧
  (gmail_archive_emails_tool ctx (some g) (pre ++ bad :: post)).calls.map (fun c => c.id) = pre ∧
  (∀ i, i ∉ pre →
    (∀ c ∈ (gmail_archive_emails_tool ctx (some g) (pre ++ bad :: post)).calls, c.id ≠ i) ∧
    findMsg (gmail_archive_emails_tool ctx (some g) (pre ++ bad :: post)).msgs i = findMsg g.msgs i) ∧
  (∀ ids, statusOf (gmail_archive_emails_tool ctx (some g) ids).result = some (JVal.s "success") ↔
    ∀ i ∈ ids, (findMsg g.msgs i).isSome = true)

/-- toNat of Char.ofNat for code points below the surrogate range. -/
theorem toNat_ofNat_of_lt (n : Nat) (h : n < 55296) : (Char.ofNat n).toNat = n := by
  have hv : n.isValidChar := Or.inl h
  rw [Char.ofNat, dif_pos hv]
  simp [Char.ofNatAux, Char.toNat, UInt32.toNat, BitVec.toNat_ofNatLt]

/-- Decoding a Base64 alphabet character recovers its index. -/
theorem b64Index_b64Char : ∀ i < 64, b64Index (b64Char i) = some i := by decide

/-- No Base64 alphabet character is the padding character. -/
theorem b64Char_ne_pad : ∀ i < 64, b64Char i ≠ '=' := by decide

/-- Base64 decoding inverts Base64 encoding on byte lists. -/
theorem b64d_b64e : ∀ l : List Nat, (∀ b ∈ l, b < 256) → b64d (b64e l) = some l := by
  intro l
  induction l using b64e.induct with
  | case1 => intro _; rfl
  | case2 a =>
    intro h
    have ha : a < 256 := h a (by simp)
    simp only [b64e, b64d]
    rw [b64Index_b64Char _ (by omega), b64Index_b64Char _ (by omega)]
    simp only [if_pos rfl, and_self, reduceIte]
    have : a / 4 * 4 + a % 4 * 16 / 16 = a := by omega
    rw [this]
  | case3 a b =>
    intro h
    have ha : a < 256 := h a (by simp)
    have hb : b < 256 := h b (by simp)
    simp only [b64e, b64d]
    rw [b64Index_b64Char _ (by omega), b64Index_b64Char _ (by omega)]
    simp only [if_neg (b64Char_ne_pad (b % 16 * 4) (by omega))]
    rw [b64Index_b64Char _ (by omega)]
    simp only [if_pos rfl, reduceIte]
    have e1 : a / 4 * 4 + (a % 4 * 16 + b / 16) / 16 = a := by omega
    have e2 : (a % 4 * 16 + b / 16) % 16 * 16 + b % 16 * 4 / 4 = b := by omega
    rw [e1, e2]
  | case4 a b c rest ih =>
    intro h
    have ha : a < 256 := h a (by simp)
    have hb : b < 256 := h b (by simp)
    have hc : c < 256 := h c (by simp)
    simp only [b64e, b64d]
    rw [b64Index_b64Char _ (by omega), b64Index_b64Char _ (by omega)]
    simp only [if_neg (b64Char_ne_pad (b % 16 * 4 + c / 64) (by omega))]
    rw [b64Index_b64Char _ (by omega)]
    simp only [if_neg (b64Char_ne_pad (c % 64) (by omega))]
    rw [b64Index_b64Char _ (by omega)]
    rw [ih (fun x hx => h x (by simp [hx]))]
    simp only [Option.map_some']
    have e1 : a / 4 * 4 + (a % 4 * 16 + b / 16) / 16 = a := by omega
    have e2 : (a % 4 * 16 + b / 16) % 16 * 16 + (b % 16 * 4 + c / 64) / 4 = b := by omega
    have e3 : (b % 16 * 4 + c / 64) % 4 * 64 + c % 64 = c := by omega
    rw [e1, e2, e3]

/-- UTF-8 encoding of an ASCII character is its single code-point byte. -/
theorem utf8EncodeChar_ascii (c : Char) (h : c.toNat < 128) : utf8EncodeChar c = [c.toNat] := by
  simp [utf8EncodeChar, h]

/-- UTF-8 encoding of an ASCII string is the list of code points. -/
theorem utf8Encode_ascii (s : List Char) (h : ∀ c ∈ s, c.toNat < 128) :
    utf8Encode s = s.map Char.toNat := by
  induction s with
  | nil => rfl
  | cons c rest ih =>
    simp only [utf8Encode, List.map_cons, List.flatten_cons] at *
    rw [utf8EncodeChar_ascii c (h c (by simp)), ih (fun x hx => h x (by simp [hx]))]
    rfl

/-- UTF-8 decoding inverts encoding on ASCII strings. -/
theorem utf8Decode_ascii (s : List Char) (h : ∀ c ∈ s, c.toNat < 128) :
    utf8Decode (s.map Char.toNat) = some s := by
  induction s with
  | nil => rfl
  | cons c rest ih =>
    have hc : c.toNat < 128 := h c (by simp)
    have ih2 := ih (fun x hx => h x (by simp [hx]))
    unfold utf8Decode at *
    simp only [List.map_cons, List.length_cons, List.length_map] at *
    rw [utf8DecodeAux.eq_def]
    simp only []
    rw [if_pos (by omega : c.toNat < 0x80), ih2]
    simp [Char.ofNat_toNat]

/-- Code point of a decimal digit character. -/
theorem toNat_digitChar (d : Nat) (h : d < 10) : (digitChar d).toNat = 48 + d :=
  toNat_ofNat_of_lt _ (by omega)

/-- Every character of a decimal rendering is a decimal digit. -/
theorem mem_natDigitsAux : ∀ fuel n, n < fuel →
    ∀ c ∈ natDigitsAux fuel n, 48 ≤ c.toNat ∧ c.toNat ≤ 57 := by
  intro fuel
  induction fuel with
  | zero => intro n hn; omega
  | succ fuel ih =>
    intro n _ c hc
    by_cases h10 : n < 10
    · simp only [natDigitsAux, if_pos h10, List.mem_singleton] at hc
      subst hc
      rw [toNat_digitChar n h10]
      omega
    · simp only [natDigitsAux, if_neg h10, List.mem_append, List.mem_singleton] at hc
      rcases hc with hc | hc
      · exact ih (n / 10) (by omega) c hc
      · subst hc
        rw [toNat_digitChar _ (by omega)]
        omega

/-- Every character of a decimal rendering is a decimal digit. -/
theorem mem_natDigits (n : Nat) : ∀ c ∈ natDigits n, 48 ≤ c.toNat ∧ c.toNat ≤ 57 :=
  mem_natDigitsAux (n + 1) n (by omega)

/-- A decimal rendering is never empty. -/
theorem natDigits_ne_nil (n : Nat) : natDigits n ≠ [] := by
  unfold natDigits natDigitsAux
  by_cases h10 : n < 10 <;> simp [h10]

/-- The accumulating parser threads its accumulator across an append. -/
theorem parseNatGo_append (xs ys : List Char) (acc : Nat) :
    parseNatGo (xs ++ ys) acc =
      match parseNatGo xs acc with
      | some v => parseNatGo ys v
      | none => none := by
  induction xs generalizing acc with
  | nil => simp [parseNatGo]
  | cons c rest ih =>
    simp only [List.cons_append, List.append_eq, parseNatGo]
    by_cases hd : 48 ≤ c.toNat ∧ c.toNat ≤ 57
    · rw [if_pos hd, if_pos hd, ih]
    · rw [if_neg hd, if_neg hd]

/-- Parsing a decimal rendering recovers the number. -/
theorem parseNatGo_natDigitsAux : ∀ fuel n, n < fuel →
    parseNatGo (natDigitsAux fuel n) 0 = some n := by
  intro fuel
  induction fuel with
  | zero => intro n hn; omega
  | succ fuel ih =>
    intro n hn
    by_cases h10 : n < 10
    · simp only [natDigitsAux, if_pos h10, parseNatGo]
      rw [toNat_digitChar n h10]
      rw [if_pos (by omega)]
      have e : 0 * 10 + (48 + n - 48) = n := by omega
      rw [e]
    · simp only [natDigitsAux, if_neg h10]
      rw [parseNatGo_append, ih (n / 10) (by omega)]
      simp only [parseNatGo]
      rw [toNat_digitChar _ (by omega : n % 10 < 10)]
      rw [if_pos (by omega)]
      have e : n / 10 * 10 + (48 + n % 10 - 48) = n := by omega
      rw [e]

/-- Python int applied to str of a natural number gives the number back. -/
theorem parseNat_natDigits (n : Nat) : parseNat (natDigits n) = some n := by
  unfold parseNat
  rw [if_neg (natDigits_ne_nil n)]
  exact parseNatGo_natDigitsAux (n + 1) n (by omega)

/-- Splitting a colon-free list yields the single segment. -/
theorem splitColon_no_colon (l : List Char) (h : ':' ∉ l) : splitColon l = [l] := by
  induction l with
  | nil => rfl
  | cons c rest ih =>
    have hc : c ≠ ':' := fun hc => h (by simp [hc])
    simp only [splitColon, if_neg hc]
    rw [ih (fun hm => h (by simp [hm]))]

/-- Splitting past a separator prepends the colon-free head segment. -/
theorem splitColon_append (a b : List Char) (h : ':' ∉ a) :
    splitColon (a ++ ':' :: b) = a :: splitColon b := by
  induction a with
  | nil => simp [splitColon]
  | cons c rest ih =>
    have hc : c ≠ ':' := fun hc => h (by simp [hc])
    simp only [List.cons_append, List.append_eq, splitColon, if_neg hc]
    rw [ih (fun hm => h (by simp [hm]))]

/-- The number of segments is one more than the number of separators. -/
theorem splitColon_length (l : List Char) :
    (splitColon l).length = l.count ':' + 1 := by
  induction l with
  | nil => rfl
  | cons c rest ih =>
    by_cases hc : c = ':'
    · subst hc
      simp [splitColon, List.count_cons, ih]
    · simp only [splitColon, if_neg hc]
      cases hsp : splitColon rest with
      | nil => rw [hsp] at ih; simp at ih
      | cons g gs =>
        simp only [List.length_cons]
        rw [hsp] at ih
        simp only [List.length_cons] at ih
        simp [List.count_cons, hc, ih]

/-- Decoding inverts minting for a resource id that is ASCII and free of the
separator character. -/
theorem decodeToken_encodeToken (rid : String) (now : Nat)
    (hascii : ∀ c ∈ rid.data, c.toNat < 128) (hcolon : ':' ∉ rid.data) :
    decodeToken (encodeToken rid now) = some (rid, now) := by
  have hdig := mem_natDigits now
  have hall : ∀ c ∈ rid.data ++ ':' :: natDigits now, c.toNat < 128 := by
    intro c hc
    simp only [List.mem_append, List.mem_cons] at hc
    rcases hc with hc | hc | hc
    · exact hascii c hc
    · subst hc; decide
    · have := hdig c hc; omega
  have hbytes : ∀ b ∈ (rid.data ++ ':' :: natDigits now).map Char.toNat, b < 256 := by
    intro b hb
    simp only [List.mem_map] at hb
    obtain ⟨c, hc, rfl⟩ := hb
    have := hall c hc
    omega
  have hnodig : ':' ∉ natDigits now := by
    intro hm
    have := hdig ':' hm
    revert this
    decide
  unfold decodeToken encodeToken
  rw [show (String.mk (b64e (utf8Encode (rid.data ++ ':' :: natDigits now)))).data
        = b64e (utf8Encode (rid.data ++ ':' :: natDigits now)) from rfl]
  rw [utf8Encode_ascii _ hall, b64d_b64e _ hbytes]
  simp only []
  rw [utf8Decode_ascii _ hall]
  simp only []
  rw [splitColon_append _ _ hcolon, splitColon_no_colon _ hnodig]
  simp only [parseNat_natDigits]

/-- A single code point never encodes to an empty byte list. -/
theorem utf8EncodeChar_ne_nil (c : Char) : utf8EncodeChar c ≠ [] := by
  simp only [utf8EncodeChar]
  split_ifs <;> simp

/-- UTF-8 encoding of a nonempty string is nonempty. -/
theorem utf8Encode_ne_nil (l : List Char) (h : l ≠ []) : utf8Encode l ≠ [] := by
  cases l with
  | nil => exact absurd rfl h
  | cons c rest =>
    simp only [utf8Encode, List.map_cons, List.flatten_cons]
    intro hx
    exact utf8EncodeChar_ne_nil c (List.append_eq_nil.mp hx).1

/-- Base64 encoding of a nonempty byte list is nonempty. -/
theorem b64e_ne_nil (l : List Nat) (h : l ≠ []) : b64e l ≠ [] := by
  match l with
  | [] => exact absurd rfl h
  | [a] => simp [b64e]
  | [a, b] => simp [b64e]
  | a :: b :: c :: rest => simp [b64e]

/-- A minted token is never the empty string, so a returned token is never
treated as absent by the falsy test of the tools. -/
theorem encodeToken_ne_empty (rid : String) (now : Nat) : encodeToken rid now ≠ "" := by
  intro h
  have hd := congrArg String.data h
  simp only [encodeToken] at hd
  exact b64e_ne_nil _ (utf8Encode_ne_nil _ (by simp)) hd

/-- For a resource id that contains the separator character, decoding a
minted token fails: the colon-joined payload splits into at least three
fields and the two-field destructuring of the source raises. -/
theorem decodeToken_encodeToken_colon (rid : String) (now : Nat)
    (hascii : ∀ c ∈ rid.data, c.toNat < 128) (hcolon : ':' ∈ rid.data) :
    decodeToken (encodeToken rid now) = none := by
  have hdig := mem_natDigits now
  have hall : ∀ c ∈ rid.data ++ ':' :: natDigits now, c.toNat < 128 := by
    intro c hc
    simp only [List.mem_append, List.mem_cons] at hc
    rcases hc with hc | hc | hc
    · exact hascii c hc
    · subst hc; decide
    · have := hdig c hc; omega
  have hbytes : ∀ b ∈ (rid.data ++ ':' :: natDigits now).map Char.toNat, b < 256 := by
    intro b hb
    simp only [List.mem_map] at hb
    obtain ⟨c, hc, rfl⟩ := hb
    have := hall c hc
    omega
  have hlen : 3 ≤ (splitColon (rid.data ++ ':' :: natDigits now)).length := by
    rw [splitColon_length]
    have h1 : 0 < rid.data.count ':' := List.count_pos_iff.mpr hcolon
    simp only [List.count_append, List.count_cons_self]
    omega
  unfold decodeToken encodeToken
  rw [show (String.mk (b64e (utf8Encode (rid.data ++ ':' :: natDigits now)))).data
        = b64e (utf8Encode (rid.data ++ ':' :: natDigits now)) from rfl]
  rw [utf8Encode_ascii _ hall, b64d_b64e _ hbytes]
  simp only []
  rw [utf8Decode_ascii _ hall]
  simp only []
  rcases hsp : splitColon (rid.data ++ ':' :: natDigits now) with _ | ⟨p1, _ | ⟨p2, _ | ⟨p3, parts⟩⟩⟩ <;>
      rw [hsp] at hlen
  all_goals simp at hlen

/-- An authenticated context passes the access gate of every tool. -/
theorem check_access_of_auth (ctx : AuthCtx) (h : ctx.is_authenticated = true) :
    check_access ctx = none := by
  simp [check_access, h]

/-- C1.  Confirmation-token round trip: with authentication in place, the
first call without a token returns a confirmation-required result carrying
the minted token and does not delete; presenting the token for the same
resource 60 seconds later reaches the delete call; presenting it 301
seconds later fails with the expired-token error without deleting;
presenting it for a different resource 60 seconds later fails with the
parameter-mismatch error without deleting.  Holds for both guarded deletion
tools, for every ASCII resource id free of the separator character. -/
theorem c1_token_round_trip (ctx : AuthCtx) (del : DeleteOutcome) (rid rid2 : String) (t0 : Nat)
    (hauth : ctx.is_authenticated = true)
    (hascii : ∀ c ∈ rid.data, c.toNat < 128)
    (hcolon : ':' ∉ rid.data)
    (hne : rid2 ≠ rid) :
    TokenRoundTripDraft ctx del rid rid2 t0 ∧ TokenRoundTripLabel ctx del rid rid2 t0 := by
  have hca := check_access_of_auth ctx hauth
  have hdec := decodeToken_encodeToken rid t0 hascii hcolon
  have hnm : rid ≠ rid2 := Ne.symm hne
  have hne60 : ¬ (t0 + 60 - t0 > CONFIRMATION_TOKEN_VALIDITY_DURATION) := by
    simp only [CONFIRMATION_TOKEN_VALIDITY_DURATION]
    omega
  have hex301 : t0 + 301 - t0 > CONFIRMATION_TOKEN_VALIDITY_DURATION := by
    simp only [CONFIRMATION_TOKEN_VALIDITY_DURATION]
    omega
  unfold TokenRoundTripDraft TokenRoundTripLabel
  refine ⟨⟨?_, ?_, ?_, ?_, ?_, ?_, ?_, ?_⟩, ?_, ?_, ?_, ?_, ?_, ?_, ?_, ?_⟩
  · simp [gmail_delete_draft_tool, hca, getKey]
  · simp [gmail_delete_draft_tool, hca, getKey]
  · simp [gmail_delete_draft_tool, hca]
  · simp only [gmail_delete_draft_tool, hca, Option.getD_some]
    rw [if_neg (encodeToken_ne_empty rid t0), hdec]
    simp only []
    rw [if_neg hne60, if_neg (by simp)]
    cases del <;> rfl
  · simp only [gmail_delete_draft_tool, hca, Option.getD_some]
    rw [if_neg (encodeToken_ne_empty rid t0), hdec]
    simp only []
    rw [if_pos hex301]
  · simp only [gmail_delete_draft_tool, hca, Option.getD_some]
    rw [if_neg (encodeToken_ne_empty rid t0), hdec]
    simp only []
    rw [if_pos hex301]
  · simp only [gmail_delete_draft_tool, hca, Option.getD_some]
    rw [if_neg (encodeToken_ne_empty rid t0), hdec]
    simp only []
    rw [if_neg hne60, if_pos hnm]
  · simp only [gmail_delete_draft_tool, hca, Option.getD_some]
    rw [if_neg (encodeToken_ne_empty rid t0), hdec]
    simp only []
    rw [if_neg hne60, if_pos hnm]
  · simp [gmail_delete_label_tool, hca, getKey]
  · simp [gmail_delete_label_tool, hca, getKey]
  · simp [gmail_delete_label_tool, hca]
  · simp only [gmail_delete_label_tool, hca, Option.getD_some]
    rw [if_neg (encodeToken_ne_empty rid t0), hdec]
    simp only []
    rw [if_neg hne60, if_neg (by simp)]
    cases del <;> rfl
  · simp only [gmail_delete_label_tool, hca, Option.getD_some]
    rw [if_neg (encodeToken_ne_empty rid t0), hdec]
    simp only []
    rw [if_pos hex301]
  · simp only [gmail_delete_label_tool, hca, Option.getD_some]
    rw [if_neg (encodeToken_ne_empty rid t0), hdec]
    simp only []
    rw [if_pos hex301]
  · simp only [gmail_delete_label_tool, hca, Option.getD_some]
    rw [if_neg (encodeToken_ne_empty rid t0), hdec]
    simp only []
    rw [if_neg hne60, if_pos hnm]
  · simp only [gmail_delete_label_tool, hca, Option.getD_some]
    rw [if_neg (encodeToken_ne_empty rid t0), hdec]
    simp only []
    rw [if_neg hne60, if_pos hnm]

/-- Witness for C1 at the concrete inputs of the specification scenario. -/
theorem c1_token_round_trip_witness :
    TokenRoundTripDraft ⟨true, none⟩ DeleteOutcome.ok "draft-123" "draft-456" 1700000000 ∧
    TokenRoundTripLabel ⟨true, none⟩ DeleteOutcome.ok "draft-123" "draft-456" 1700000000 :=
  c1_token_round_trip ⟨true, none⟩ DeleteOutcome.ok "draft-123" "draft-456" 1700000000
    rfl (by decide) (by decide) (by decide)

/-- C10.  For every ASCII resource id containing the separator character,
a token minted by the first phase and passed back with the identical
resource id within the validity window is rejected as an invalid
confirmation token (the two-field decode of the colon-joined payload
fails), so such a resource is never deleted through the two-phase
protocol. -/
theorem c10_colon_id_never_deletable (ctx : AuthCtx) (del : DeleteOutcome) (rid : String)
    (t0 dt : Nat)
    (hauth : ctx.is_authenticated = true)
    (hascii : ∀ c ∈ rid.data, c.toNat < 128)
    (hcolon : ':' ∈ rid.data)
    (_hwindow : dt ≤ CONFIRMATION_TOKEN_VALIDITY_DURATION) :
    ColonSeparatorBreak ctx del rid t0 dt := by
  have hca := check_access_of_auth ctx hauth
  have hdec := decodeToken_encodeToken_colon rid t0 hascii hcolon
  refine ⟨?_, ?_, ?_, ?_⟩ <;>
  · simp only [gmail_delete_draft_tool, gmail_delete_label_tool, hca, Option.getD_some]
    rw [if_neg (encodeToken_ne_empty rid t0), hdec]

/-- Witness for C10 at a concrete resource id containing the separator. -/
theorem c10_colon_id_never_deletable_witness :
    ColonSeparatorBreak ⟨true, none⟩ DeleteOutcome.ok "a:b" 1700000000 60 :=
  c10_colon_id_never_deletable ⟨true, none⟩ DeleteOutcome.ok "a:b" 1700000000 60
    rfl (by decide) (by decide) (by decide)

/-- Every result of the guarded draft deletion satisfies `UniformShape`. -/
theorem uniformShape_draft (ctx : AuthCtx) (svc : Option DeleteOutcome)
    (rid : String) (tok : Option String) (now : Nat) :
    UniformShape (gmail_delete_draft_tool ctx svc rid tok now).result := by
  unfold gmail_delete_draft_tool check_access
  rcases ctx with ⟨auth, msg⟩
  cases auth
  · simp [UniformShape, statusOf, getKey]
  · cases svc with
    | none => simp [UniformShape, statusOf, getKey]
    | some del =>
      simp only [if_true]
      by_cases hT : tok.getD "" = ""
      · rw [if_pos hT]
        simp [UniformShape, statusOf, getKey]
      · rw [if_neg hT]
        cases hdec : decodeToken (tok.getD "") with
        | none => simp [UniformShape, statusOf, getKey]
        | some p =>
          obtain ⟨tid, ts⟩ := p
          simp only []
          by_cases hexp : now - ts > CONFIRMATION_TOKEN_VALIDITY_DURATION
          · rw [if_pos hexp]
            simp [UniformShape, statusOf, getKey]
          · rw [if_neg hexp]
            by_cases hmm : tid ≠ rid
            · rw [if_pos hmm]
              simp [UniformShape, statusOf, getKey]
            · rw [if_neg hmm]
              cases del <;> simp [UniformShape, statusOf, getKey]

/-- Every result of the guarded label deletion satisfies `UniformShape`. -/
theorem uniformShape_label (ctx : AuthCtx) (svc : Option DeleteOutcome)
    (rid : String) (tok : Option String) (now : Nat) :
    UniformShape (gmail_delete_label_tool ctx svc rid tok now).result := by
  unfold gmail_delete_label_tool check_access
  rcases ctx with ⟨auth, msg⟩
  cases auth
  · simp [UniformShape, statusOf, getKey]
  · cases svc with
    | none => simp [UniformShape, statusOf, getKey]
    | some del =>
      simp only [if_true]
      by_cases hT : tok.getD "" = ""
      · rw [if_pos hT]
        simp [UniformShape, statusOf, getKey]
      · rw [if_neg hT]
        cases hdec : decodeToken (tok.getD "") with
        | none => simp [UniformShape, statusOf, getKey]
        | some p =>
          obtain ⟨tid, ts⟩ := p
          simp only []
          by_cases hexp : now - ts > CONFIRMATION_TOKEN_VALIDITY_DURATION
          · rw [if_pos hexp]
            simp [UniformShape, statusOf, getKey]
          · rw [if_neg hexp]
            by_cases hmm : tid ≠ rid
            · rw [if_pos hmm]
              simp [UniformShape, statusOf, getKey]
            · rw [if_neg hmm]
              cases del <;> simp [UniformShape, statusOf, getKey]

/-- C6 counterexample.  The claim says the ExpiredToken failure of a guarded
deletion carries a status field equal to error; presenting an expired token
to the draft deletion returns the expired-token dictionary, which carries no
status key at all. -/
theorem c6_counterexample_no_status_on_expired :
    (gmail_delete_draft_tool ⟨true, none⟩ (some DeleteOutcome.ok) "draft-123"
        (some (encodeToken "draft-123" 0)) 301).result
      = [("error", JVal.s "Confirmation token has expired. Please request a new token.")] ∧
    statusOf (gmail_delete_draft_tool ⟨true, none⟩ (some DeleteOutcome.ok) "draft-123"
        (some (encodeToken "draft-123" 0)) 301).result = none := by
  constructor <;> rfl

/-- C6 amended.  Every result of a guarded deletion tool either carries a
status field equal to success or error, or is the confirmation-phase
dictionary with confirmation_token, action confirm_deletion and message, or
is one of the token-failure dictionaries, which carry an error message but
no status field. -/
theorem c6_result_shape (ctx : AuthCtx) (svc : Option DeleteOutcome)
    (rid rid2 : String) (tok tok2 : Option String) (now now2 : Nat) :
    UniformShape (gmail_delete_draft_tool ctx svc rid tok now).result ∧
    UniformShape (gmail_delete_label_tool ctx svc rid2 tok2 now2).result :=
  ⟨uniformShape_draft ctx svc rid tok now, uniformShape_label ctx svc rid2 tok2 now2⟩

/-- Exhaustive enumeration of the outcomes of one middleware run, one
disjunct per terminal state of the source. -/
theorem dispatch_cases (env : AuthEnv) (ctx0 : AuthCtx) :
    dispatch env ctx0 = ⟨{ ctx0 with is_authenticated := false, error_message := some msgNoToken },
        true, [], false, .noTokenHeader⟩ ∨
    dispatch env ctx0 = ⟨{ ctx0 with is_authenticated := false, error_message := some msgAuthAgain },
        true, [], false, .storeLookupFailed⟩ ∨
    dispatch env ctx0 = ⟨{ ctx0 with is_authenticated := false, error_message := some msgAuthAgain },
        true, [], false, .credentialMissing⟩ ∨
    dispatch env ctx0 = ⟨{ ctx0 with is_authenticated := false }, true, [], false, .parseFailed⟩ ∨
    dispatch env ctx0 = ⟨{ ctx0 with is_authenticated := false, error_message := some msgAuthAgain },
        true, [], false, .refreshFailed⟩ ∨
    dispatch env ctx0 = ⟨{ ctx0 with is_authenticated := false, error_message := some msgDeauth },
        true, [], false, .invalidUnrefreshable⟩ ∨
    (∃ w, dispatch env ctx0 = ⟨{ ctx0 with is_authenticated := false, error_message := some msgOuter },
        true, w, false, .outerException⟩) ∨
    (∃ w, dispatch env ctx0 = ⟨{ ctx0 with is_authenticated := true, error_message := ctx0.error_message },
        true, w, true, .valid⟩) := by
  unfold dispatch finishValid
  repeat' split
  all_goals
    first
      | exact Or.inl rfl
      | exact Or.inr (Or.inl rfl)
      | exact Or.inr (Or.inr (Or.inl rfl))
      | exact Or.inr (Or.inr (Or.inr (Or.inl rfl)))
      | exact Or.inr (Or.inr (Or.inr (Or.inr (Or.inl rfl))))
      | exact Or.inr (Or.inr (Or.inr (Or.inr (Or.inr (Or.inl rfl)))))
      | exact Or.inr (Or.inr (Or.inr (Or.inr (Or.inr (Or.inr (Or.inl ⟨_, rfl⟩))))))
      | exact Or.inr (Or.inr (Or.inr (Or.inr (Or.inr (Or.inr (Or.inr ⟨_, rfl⟩))))))

/-- C4.  Fail-open guard: every middleware run, whatever the header, store,
parse, refresh, verification, persistence and callback oracles do, reaches
one of the defined terminal states and forwards the request downstream;
raised exceptions are absorbed into degraded states, never propagated. -/
theorem c4_guard_always_forwards (env : AuthEnv) (ctx0 : AuthCtx) :
    (dispatch env ctx0).forwarded = true := by
  rcases dispatch_cases env ctx0 with h | h | h | h | h | h | ⟨w, h⟩ | ⟨w, h⟩ <;> rw [h]

/-- C5.  Refresh transition: for a stored credential that parses to an
expired credential carrying a refresh token, when the exchange,
verification, persistence and capability callback all succeed, the run
persists the new access value keyed by the extracted subject id, marks the
context authenticated, publishes the capability and ends in the valid
state. -/
theorem c5_refresh_persists_by_subject (env : AuthEnv) (ctx0 : AuthCtx)
    (t : String) (cred : StoredCred) (rt newTok sub : String)
    (hheader : env.header = some t)
    (hget : env.getCredentials = Except.ok cred)
    (hkey : cred.hasErrorKey = false)
    (hparse : env.parse = Except.ok ⟨false, true, some rt⟩)
    (hrefr : env.refreshExchange = Except.ok ⟨newTok⟩)
    (hverify : env.verify = Except.ok sub)
    (hupd : env.updateToken = Except.ok ())
    (hcb : env.authCallback = Except.ok ()) :
    (dispatch env ctx0).storeWrites = [(sub, newTok)] ∧
    (dispatch env ctx0).ctx.is_authenticated = true ∧
    (dispatch env ctx0).capabilityPublished = true ∧
    (dispatch env ctx0).state = AuthState.valid := by
  unfold dispatch finishValid
  rw [hheader, hget, hparse, hrefr, hverify, hupd, hcb]
  simp [hkey]

/-- Witness for C5 at a concrete environment. -/
theorem c5_refresh_persists_by_subject_witness :
    (dispatch refreshEnv ⟨false, none⟩).storeWrites = [("subj", "newTok")] ∧
    (dispatch refreshEnv ⟨false, none⟩).ctx.is_authenticated = true ∧
    (dispatch refreshEnv ⟨false, none⟩).capabilityPublished = true ∧
    (dispatch refreshEnv ⟨false, none⟩).state = AuthState.valid :=
  c5_refresh_persists_by_subject refreshEnv ⟨false, none⟩ "tok" ⟨false⟩ "rt" "newTok" "subj"
    rfl rfl rfl rfl rfl rfl rfl rfl

/-- C7 counterexample.  The claim says every non-valid terminal state leaves
a human-readable error message in the published context; a run that fails
credential parsing ends in parseFailed with the request still forwarded but
with no error message stored in the context (the source returns from the
parse handler without setting one). -/
theorem c7_counterexample_parse_failed_no_message :
    (dispatch parseFailEnv ⟨false, none⟩).state = AuthState.parseFailed ∧
    (dispatch parseFailEnv ⟨false, none⟩).forwarded = true ∧
    (dispatch parseFailEnv ⟨false, none⟩).ctx.error_message = none :=
  ⟨rfl, rfl, rfl⟩

/-- C7 amended.  Every run that ends in a non-valid terminal state still
forwards the request and leaves the context unauthenticated, so the first
operation that checks authentication surfaces an error dictionary; the
states other than parseFailed store a human-readable message in the
context, while parseFailed stores none and the surfaced message falls back
to the stale or default text. -/
theorem c7_degraded_state_message (env : AuthEnv) (ctx0 : AuthCtx)
    (h : (dispatch env ctx0).state ≠ AuthState.valid) :
    DegradedRunStillServes env ctx0 := by
  unfold DegradedRunStillServes
  rcases dispatch_cases env ctx0 with h1 | h1 | h1 | h1 | h1 | h1 | ⟨w, h1⟩ | ⟨w, h1⟩
  · rw [h1]
    exact ⟨rfl, rfl, fun _ => rfl, fun hp => by simp at hp, rfl⟩
  · rw [h1]
    exact ⟨rfl, rfl, fun _ => rfl, fun hp => by simp at hp, rfl⟩
  · rw [h1]
    exact ⟨rfl, rfl, fun _ => rfl, fun hp => by simp at hp, rfl⟩
  · rw [h1]
    exact ⟨rfl, rfl, fun hnp => absurd rfl hnp, fun _ => rfl, rfl⟩
  · rw [h1]
    exact ⟨rfl, rfl, fun _ => rfl, fun hp => by simp at hp, rfl⟩
  · rw [h1]
    exact ⟨rfl, rfl, fun _ => rfl, fun hp => by simp at hp, rfl⟩
  · rw [h1]
    exact ⟨rfl, rfl, fun _ => rfl, fun hp => by simp at hp, rfl⟩
  · rw [h1] at h
    simp at h

/-- Witness for the amended C7 at a concrete degraded run. -/
theorem c7_degraded_state_message_witness :
    DegradedRunStillServes storeFailEnv ⟨true, none⟩ :=
  c7_degraded_state_message storeFailEnv ⟨true, none⟩ (by decide)

/-- Membership after a modify call. -/
theorem mem_applyModify (labels rem add : List String) (l : String) :
    l ∈ applyModify labels rem add ↔ (l ∈ labels ∧ l ∉ rem) ∨ l ∈ add := by
  simp [applyModify, List.mem_filter]

/-- Membership in the removal list of the move tool. -/
theorem mem_moveRemove (fIds : List String) (tid : String) (cur : List String) (l : String) :
    l ∈ moveRemove fIds tid cur ↔ l ∈ cur ∧ (l ∈ fIds ∧ l ≠ tid) := by
  simp [moveRemove, List.mem_filter]

/-- Membership after the modify call of the move tool. -/
theorem mem_moveApply (fIds : List String) (tid : String) (cur : List String) (l : String) :
    l ∈ moveApply fIds tid cur ↔ (l ∈ cur ∧ ¬(l ∈ fIds ∧ l ≠ tid)) ∨ l = tid := by
  rw [moveApply, mem_applyModify]
  rw [mem_moveRemove]
  simp only [List.mem_singleton]
  tauto

/-- After a move modify call the folder intersection is exactly the
target. -/
theorem moveApply_folderExactly (fIds : List String) (tid : String) (cur : List String)
    (ht : tid ∈ fIds) : FolderExactly fIds tid (moveApply fIds tid cur) := by
  intro l
  rw [mem_moveApply]
  constructor
  · rintro ⟨⟨hc, hn⟩ | rfl, hf⟩
    · by_contra hne
      exact hn ⟨hf, hne⟩
    · rfl
  · rintro rfl
    exact ⟨Or.inr rfl, ht⟩

/-- A move modify call does not change membership of non-folder labels. -/
theorem moveApply_nonfolder (fIds : List String) (tid : String) (cur : List String)
    (ht : tid ∈ fIds) (l : String) (hl : l ∉ fIds) :
    l ∈ moveApply fIds tid cur ↔ l ∈ cur := by
  rw [mem_moveApply]
  constructor
  · rintro (⟨hc, _⟩ | rfl)
    · exact hc
    · exact absurd ht hl
  · intro hc
    exact Or.inl ⟨hc, fun hp => hl hp.1⟩

/-- On a label set whose folder intersection is already exactly the target,
the move tool computes an empty removal list. -/
theorem moveRemove_eq_nil (fIds : List String) (tid : String) (cur : List String)
    (hP : FolderExactly fIds tid cur) : moveRemove fIds tid cur = [] := by
  apply List.filter_eq_nil_iff.mpr
  intro a ha
  simp only [decide_eq_true_eq, not_and, not_not]
  intro hf
  exact ((hP a).mp ⟨ha, hf⟩)

/-- Membership in the removal list of the archive tool. -/
theorem mem_archiveRemove (fIds : List String) (cur : List String) (l : String) :
    l ∈ archiveRemove fIds cur ↔ l ∈ cur ∧ l ∈ fIds := by
  simp [archiveRemove, List.mem_filter]

/-- Membership after the modify call of the archive tool. -/
theorem mem_archiveApply (fIds : List String) (cur : List String) (l : String) :
    l ∈ archiveApply fIds cur ↔ l ∈ cur ∧ l ∉ fIds := by
  rw [archiveApply, mem_applyModify]
  rw [mem_archiveRemove]
  simp only [List.not_mem_nil, or_false]
  tauto

/-- After an archive modify call no folder label remains. -/
theorem archiveApply_folderFree (fIds : List String) (cur : List String) :
    FolderFree fIds (archiveApply fIds cur) := by
  intro l hl
  exact ((mem_archiveApply fIds cur l).mp hl).2

/-- An archive modify call does not change membership of non-folder
labels. -/
theorem archiveApply_nonfolder (fIds : List String) (cur : List String)
    (l : String) (hl : l ∉ fIds) :
    l ∈ archiveApply fIds cur ↔ l ∈ cur := by
  rw [mem_archiveApply]
  exact ⟨fun h => h.1, fun h => ⟨h, hl⟩⟩

/-- Lookup after replacing the labels of one message id. -/
theorem findMsg_updateMsg (msgs : List (String × List String)) (u q : String)
    (labels : List String) :
    findMsg (updateMsg msgs u labels) q =
      if q = u then (findMsg msgs q).map (fun _ => labels) else findMsg msgs q := by
  induction msgs with
  | nil => simp [updateMsg, findMsg]
  | cons p rest ih =>
    obtain ⟨pk, pv⟩ := p
    simp only [updateMsg]
    by_cases hpu : pk = u
    · rw [if_pos hpu]
      by_cases hqp : pk = q
      · have hqu : q = u := hqp ▸ hpu
        rw [if_pos hqu]
        simp [findMsg, hqp]
      · simp only [findMsg, if_neg hqp]
        rw [ih]
    · rw [if_neg hpu]
      by_cases hqp : pk = q
      · have hqu : ¬ q = u := fun h => hpu (by rw [hqp, h])
        simp only [findMsg, if_pos hqp, if_neg hqu]
      · simp only [findMsg, if_neg hqp]
        rw [ih]

/-- Replacing one message id never changes which ids are present. -/
theorem findMsg_updateMsg_isSome (msgs : List (String × List String)) (u q : String)
    (labels : List String) :
    (findMsg (updateMsg msgs u labels) q).isSome = (findMsg msgs q).isSome := by
  rw [findMsg_updateMsg]
  split
  · simp
  · rfl

/-- The move loop reports success exactly when every id in the batch is
found by the per-message call. -/
theorem processMove_status (fIds : List String) (tid name : String) :
    ∀ (ids : List String) (msgs : List (String × List String)) (calls : List ModifyCall),
      statusOf (processMove fIds tid name ids msgs calls).result = some (JVal.s "success") ↔
        ∀ i ∈ ids, (findMsg msgs i).isSome = true := by
  intro ids
  induction ids with
  | nil =>
    intro msgs calls
    simp [processMove, moveSuccess, statusOf, getKey]
  | cons mid rest ih =>
    intro msgs calls
    cases h0 : findMsg msgs mid with
    | none =>
      simp only [processMove, h0]
      constructor
      · intro h
        simp [errModify, statusOf, getKey] at h
      · intro h
        have h1 := h mid (by simp)
        rw [h0] at h1
        simp at h1
    | some cur =>
      simp only [processMove, h0]
      rw [ih]
      constructor
      · intro h i hi
        rcases List.mem_cons.mp hi with rfl | hi2
        · rw [h0]; rfl
        · have h2 := h i hi2
          rw [findMsg_updateMsg_isSome] at h2
          exact h2
      · intro h i hi
        rw [findMsg_updateMsg_isSome]
        exact h i (by simp [hi])

/-- Per-message tracking through the move loop: the message stays present,
its non-folder labels never change, it is untouched when absent from the
batch, and when the batch succeeds and contains it, its folder intersection
ends as exactly the target. -/
theorem processMove_track (fIds : List String) (tid name : String) (ht : tid ∈ fIds) :
    ∀ (ids : List String) (msgs : List (String × List String)) (calls : List ModifyCall)
      (mid : String) (L : List String), findMsg msgs mid = some L →
      ∃ L2, findMsg (processMove fIds tid name ids msgs calls).msgs mid = some L2 ∧
        (∀ l, l ∉ fIds → (l ∈ L2 ↔ l ∈ L)) ∧
        (mid ∉ ids → L2 = L) ∧
        ((∀ i ∈ ids, (findMsg msgs i).isSome = true) → mid ∈ ids → FolderExactly fIds tid L2) := by
  intro ids
  induction ids with
  | nil =>
    intro msgs calls mid L hfind
    refine ⟨L, ?_, fun l _ => Iff.rfl, fun _ => rfl, fun _ hm => absurd hm (List.not_mem_nil mid)⟩
    simpa [processMove] using hfind
  | cons mid0 rest ih =>
    intro msgs calls mid L hfind
    cases h0 : findMsg msgs mid0 with
    | none =>
      refine ⟨L, ?_, fun l _ => Iff.rfl, fun _ => rfl, ?_⟩
      · simpa [processMove, h0] using hfind
      · intro hall _
        have h1 := hall mid0 (by simp)
        rw [h0] at h1
        simp at h1
    | some cur =>
      simp only [processMove, h0]
      have hfind1 : findMsg (updateMsg msgs mid0 (moveApply fIds tid cur)) mid =
          some (if mid = mid0 then moveApply fIds tid cur else L) := by
        rw [findMsg_updateMsg]
        by_cases hmm : mid = mid0
        · rw [if_pos hmm, if_pos hmm, hfind]
          rfl
        · rw [if_neg hmm, if_neg hmm, hfind]
      obtain ⟨L2, hfind2, hnf2, hun2, hfold2⟩ :=
        ih (updateMsg msgs mid0 (moveApply fIds tid cur))
          (calls ++ [⟨mid0, moveRemove fIds tid cur, [tid]⟩]) mid _ hfind1
      refine ⟨L2, hfind2, ?_, ?_, ?_⟩
      · intro l hl
        rw [hnf2 l hl]
        by_cases hmm : mid = mid0
        · rw [if_pos hmm]
          rw [moveApply_nonfolder fIds tid cur ht l hl]
          have hcl : cur = L := by
            rw [hmm, h0] at hfind
            injection hfind
          rw [hcl]
        · rw [if_neg hmm]
      · intro hnot
        have hmm : ¬ mid = mid0 := fun h => hnot (by simp [h])
        have hmr : mid ∉ rest := fun h => hnot (by simp [h])
        rw [hun2 hmr, if_neg hmm]
      · intro hall hmem
        have hall1 : ∀ i ∈ rest, (findMsg (updateMsg msgs mid0 (moveApply fIds tid cur)) i).isSome = true := by
          intro i hi
          rw [findMsg_updateMsg_isSome]
          exact hall i (by simp [hi])
        by_cases hmr : mid ∈ rest
        · exact hfold2 hall1 hmr
        · have hmm : mid = mid0 := by
            rcases List.mem_cons.mp hmem with h | h
            · exact h
            · exact absurd h hmr
          rw [hun2 hmr, if_pos hmm]
          exact moveApply_folderExactly fIds tid cur ht

/-- The move loop visits ids strictly in order and stops at the first
failing id: the result is that failure, the issued calls are exactly one
per id of the prefix before the failure, and every id outside that prefix
keeps its labels. -/
theorem processMove_abort (fIds : List String) (tid name bad : String) :
    ∀ (pre post : List String) (msgs : List (String × List String)) (calls : List ModifyCall),
      (∀ i ∈ pre, (findMsg msgs i).isSome = true) →
      findMsg msgs bad = none →
      (processMove fIds tid name (pre ++ bad :: post) msgs calls).result = errModify bad ∧
      (∃ cs, (processMove fIds tid name (pre ++ bad :: post) msgs calls).calls = calls ++ cs ∧
        cs.map (fun c => c.id) = pre) ∧
      (∀ i, i ∉ pre →
        findMsg (processMove fIds tid name (pre ++ bad :: post) msgs calls).msgs i = findMsg msgs i) := by
  intro pre
  induction pre with
  | nil =>
    intro post msgs calls _ hbad
    refine ⟨?_, ⟨[], ?_, ?_⟩, fun i _ => ?_⟩ <;> simp [processMove, hbad]
  | cons p pre ih =>
    intro post msgs calls hall hbad
    have hp : (findMsg msgs p).isSome = true := hall p (by simp)
    cases h0 : findMsg msgs p with
    | none =>
      rw [h0] at hp
      simp at hp
    | some cur =>
      simp only [List.cons_append, List.append_eq, processMove, h0]
      have hbp : ¬ bad = p := by
        intro h
        rw [h, h0] at hbad
        exact Option.noConfusion hbad
      have hall1 : ∀ i ∈ pre, (findMsg (updateMsg msgs p (moveApply fIds tid cur)) i).isSome = true := by
        intro i hi
        rw [findMsg_updateMsg_isSome]
        exact hall i (by simp [hi])
      have hbad1 : findMsg (updateMsg msgs p (moveApply fIds tid cur)) bad = none := by
        rw [findMsg_updateMsg, if_neg hbp]
        exact hbad
      obtain ⟨hres, ⟨cs, hcalls, hmap⟩, hun⟩ :=
        ih post (updateMsg msgs p (moveApply fIds tid cur))
          (calls ++ [⟨p, moveRemove fIds tid cur, [tid]⟩]) hall1 hbad1
      refine ⟨hres, ⟨⟨p, moveRemove fIds tid cur, [tid]⟩ :: cs, ?_, ?_⟩, ?_⟩
      · rw [hcalls]
        simp
      · simp [hmap]
      · intro i hi
        have hip : ¬ i = p := fun h => hi (by simp [h])
        have hir : i ∉ pre := fun h => hi (by simp [h])
        rw [hun i hir, findMsg_updateMsg, if_neg hip]

/-- When every id of the batch already satisfies the folder invariant for
the target, every modify call of the move loop carries an empty removal
list. -/
theorem processMove_removals (fIds : List String) (tid name : String) (ht : tid ∈ fIds) :
    ∀ (ids : List String) (msgs : List (String × List String)) (calls : List ModifyCall),
      (∀ mid L, mid ∈ ids → findMsg msgs mid = some L → FolderExactly fIds tid L) →
      ∀ c ∈ (processMove fIds tid name ids msgs calls).calls,
        c ∈ calls ∨ c.removeLabelIds = [] := by
  intro ids
  induction ids with
  | nil =>
    intro msgs calls _ c hc
    exact Or.inl (by simpa [processMove] using hc)
  | cons mid0 rest ih =>
    intro msgs calls h c hc
    cases h0 : findMsg msgs mid0 with
    | none =>
      simp only [processMove, h0] at hc
      exact Or.inl hc
    | some cur =>
      simp only [processMove, h0] at hc
      have hP : FolderExactly fIds tid cur := h mid0 cur (by simp) h0
      have hrem : moveRemove fIds tid cur = [] := moveRemove_eq_nil fIds tid cur hP
      have h1 : ∀ mid L, mid ∈ rest →
          findMsg (updateMsg msgs mid0 (moveApply fIds tid cur)) mid = some L →
          FolderExactly fIds tid L := by
        intro mid L hm hfind
        rw [findMsg_updateMsg] at hfind
        by_cases hmm : mid = mid0
        · rw [if_pos hmm, hmm, h0] at hfind
          simp only [Option.map_some'] at hfind
          injection hfind with hL
          rw [← hL]
          exact moveApply_folderExactly fIds tid cur ht
        · rw [if_neg hmm] at hfind
          exact h mid L (by simp [hm]) hfind
      rcases ih (updateMsg msgs mid0 (moveApply fIds tid cur))
          (calls ++ [⟨mid0, moveRemove fIds tid cur, [tid]⟩]) h1 c hc with hin | hnil
      · rcases List.mem_append.mp hin with hin2 | hin2
        · exact Or.inl hin2
        · right
          have hceq : c = ⟨mid0, moveRemove fIds tid cur, [tid]⟩ := by simpa using hin2
          rw [hceq]
          exact hrem
      · exact Or.inr hnil

/-- The archive loop reports success exactly when every id in the batch is
found by the per-message call. -/
theorem processArchive_status (fIds : List String) :
    ∀ (ids : List String) (msgs : List (String × List String)) (calls : List ModifyCall),
      statusOf (processArchive fIds ids msgs calls).result = some (JVal.s "success") ↔
        ∀ i ∈ ids, (findMsg msgs i).isSome = true := by
  intro ids
  induction ids with
  | nil =>
    intro msgs calls
    simp [processArchive, archiveSuccess, statusOf, getKey]
  | cons mid rest ih =>
    intro msgs calls
    cases h0 : findMsg msgs mid with
    | none =>
      simp only [processArchive, h0]
      constructor
      · intro h
        simp [errModify, statusOf, getKey] at h
      · intro h
        have h1 := h mid (by simp)
        rw [h0] at h1
        simp at h1
    | some cur =>
      simp only [processArchive, h0]
      rw [ih]
      constructor
      · intro h i hi
        rcases List.mem_cons.mp hi with rfl | hi2
        · rw [h0]; rfl
        · have h2 := h i hi2
          rw [findMsg_updateMsg_isSome] at h2
          exact h2
      · intro h i hi
        rw [findMsg_updateMsg_isSome]
        exact h i (by simp [hi])

/-- Per-message tracking through the archive loop: the message stays
present, its non-folder labels never change, it is untouched when absent
from the batch, and when the batch succeeds and contains it, no folder
label remains on it. -/
theorem processArchive_track (fIds : List String) :
    ∀ (ids : List String) (msgs : List (String × List String)) (calls : List ModifyCall)
      (mid : String) (L : List String), findMsg msgs mid = some L →
      ∃ L2, findMsg (processArchive fIds ids msgs calls).msgs mid = some L2 ∧
        (∀ l, l ∉ fIds → (l ∈ L2 ↔ l ∈ L)) ∧
        (mid ∉ ids → L2 = L) ∧
        ((∀ i ∈ ids, (findMsg msgs i).isSome = true) → mid ∈ ids → FolderFree fIds L2) := by
  intro ids
  induction ids with
  | nil =>
    intro msgs calls mid L hfind
    refine ⟨L, ?_, fun l _ => Iff.rfl, fun _ => rfl, fun _ hm => absurd hm (List.not_mem_nil mid)⟩
    simpa [processArchive] using hfind
  | cons mid0 rest ih =>
    intro msgs calls mid L hfind
    cases h0 : findMsg msgs mid0 with
    | none =>
      refine ⟨L, ?_, fun l _ => Iff.rfl, fun _ => rfl, ?_⟩
      · simpa [processArchive, h0] using hfind
      · intro hall _
        have h1 := hall mid0 (by simp)
        rw [h0] at h1
        simp at h1
    | some cur =>
      simp only [processArchive, h0]
      have hfind1 : findMsg (updateMsg msgs mid0 (archiveApply fIds cur)) mid =
          some (if mid = mid0 then archiveApply fIds cur else L) := by
        rw [findMsg_updateMsg]
        by_cases hmm : mid = mid0
        · rw [if_pos hmm, if_pos hmm, hfind]
          rfl
        · rw [if_neg hmm, if_neg hmm, hfind]
      obtain ⟨L2, hfind2, hnf2, hun2, hfold2⟩ :=
        ih (updateMsg msgs mid0 (archiveApply fIds cur))
          (calls ++ [⟨mid0, archiveRemove fIds cur, []⟩]) mid _ hfind1
      refine ⟨L2, hfind2, ?_, ?_, ?_⟩
      · intro l hl
        rw [hnf2 l hl]
        by_cases hmm : mid = mid0
        · rw [if_pos hmm]
          rw [archiveApply_nonfolder fIds cur l hl]
          have hcl : cur = L := by
            rw [hmm, h0] at hfind
            injection hfind
          rw [hcl]
        · rw [if_neg hmm]
      · intro hnot
        have hmm : ¬ mid = mid0 := fun h => hnot (by simp [h])
        have hmr : mid ∉ rest := fun h => hnot (by simp [h])
        rw [hun2 hmr, if_neg hmm]
      · intro hall hmem
        have hall1 : ∀ i ∈ rest, (findMsg (updateMsg msgs mid0 (archiveApply fIds cur)) i).isSome = true := by
          intro i hi
          rw [findMsg_updateMsg_isSome]
          exact hall i (by simp [hi])
        by_cases hmr : mid ∈ rest
        · exact hfold2 hall1 hmr
        · have hmm : mid = mid0 := by
            rcases List.mem_cons.mp hmem with h | h
            · exact h
            · exact absurd h hmr
          rw [hun2 hmr, if_pos hmm]
          exact archiveApply_folderFree fIds cur

/-- The archive loop visits ids strictly in order and stops at the first
failing id, leaving every id outside the processed prefix untouched. -/
theorem processArchive_abort (fIds : List String) (bad : String) :
    ∀ (pre post : List String) (msgs : List (String × List String)) (calls : List ModifyCall),
      (∀ i ∈ pre, (findMsg msgs i).isSome = true) →
      findMsg msgs bad = none →
      (processArchive fIds (pre ++ bad :: post) msgs calls).result = errModify bad ∧
      (∃ cs, (processArchive fIds (pre ++ bad :: post) msgs calls).calls = calls ++ cs ∧
        cs.map (fun c => c.id) = pre) ∧
      (∀ i, i ∉ pre →
        findMsg (processArchive fIds (pre ++ bad :: post) msgs calls).msgs i = findMsg msgs i) := by
  intro pre
  induction pre with
  | nil =>
    intro post msgs calls _ hbad
    refine ⟨?_, ⟨[], ?_, ?_⟩, fun i _ => ?_⟩ <;> simp [processArchive, hbad]
  | cons p pre ih =>
    intro post msgs calls hall hbad
    have hp : (findMsg msgs p).isSome = true := hall p (by simp)
    cases h0 : findMsg msgs p with
    | none =>
      rw [h0] at hp
      simp at hp
    | some cur =>
      simp only [List.cons_append, List.append_eq, processArchive, h0]
      have hbp : ¬ bad = p := by
        intro h
        rw [h, h0] at hbad
        exact Option.noConfusion hbad
      have hall1 : ∀ i ∈ pre, (findMsg (updateMsg msgs p (archiveApply fIds cur)) i).isSome = true := by
        intro i hi
        rw [findMsg_updateMsg_isSome]
        exact hall i (by simp [hi])
      have hbad1 : findMsg (updateMsg msgs p (archiveApply fIds cur)) bad = none := by
        rw [findMsg_updateMsg, if_neg hbp]
        exact hbad
      obtain ⟨hres, ⟨cs, hcalls, hmap⟩, hun⟩ :=
        ih post (updateMsg msgs p (archiveApply fIds cur))
          (calls ++ [⟨p, archiveRemove fIds cur, []⟩]) hall1 hbad1
      refine ⟨hres, ⟨⟨p, archiveRemove fIds cur, []⟩ :: cs, ?_, ?_⟩, ?_⟩
      · rw [hcalls]
        simp
      · simp [hmap]
      · intro i hi
        have hip : ¬ i = p := fun h => hi (by simp [h])
        have hir : i ∉ pre := fun h => hi (by simp [h])
        rw [hun i hir, findMsg_updateMsg, if_neg hip]

/-- With authentication and a resolvable target label, the move tool is the
per-message loop over the catalog-derived folder ids. -/
theorem gmail_move_emails_tool_eq (ctx : AuthCtx) (g : GmailSvc)
    (ids : List String) (name tid : String)
    (hauth : ctx.is_authenticated = true)
    (hname : nameToId g.labels name = some tid) :
    gmail_move_emails_tool ctx (some g) ids name =
      processMove (folderIdsOf g.labels) tid name ids g.msgs [] := by
  simp [gmail_move_emails_tool, check_access_of_auth ctx hauth, hname]

/-- With authentication, the archive tool is the per-message loop over the
catalog-derived folder ids. -/
theorem gmail_archive_emails_tool_eq (ctx : AuthCtx) (g : GmailSvc)
    (ids : List String)
    (hauth : ctx.is_authenticated = true) :
    gmail_archive_emails_tool ctx (some g) ids =
      processArchive (folderIdsOf g.labels) ids g.msgs [] := by
  simp [gmail_archive_emails_tool, check_access_of_auth ctx hauth]

/-- C2.  Folder-exclusivity invariant: with authentication in place, a
resolvable target whose id is a folder label, and a successful run, every
message of a move batch ends with its folder-label intersection equal to
exactly the target, every message of an archive batch ends with an empty
folder-label intersection, and neither operation changes membership of any
non-folder label. -/
theorem c2_folder_exclusivity (ctx : AuthCtx) (g : GmailSvc)
    (ids ids2 : List String) (name tid mid mid2 : String) (L L2 : List String)
    (hauth : ctx.is_authenticated = true)
    (hname : nameToId g.labels name = some tid)
    (ht : tid ∈ folderIdsOf g.labels)
    (hmid : mid ∈ ids)
    (hL : findMsg g.msgs mid = some L)
    (hsucc : statusOf (gmail_move_emails_tool ctx (some g) ids name).result = some (JVal.s "success"))
    (hmid2 : mid2 ∈ ids2)
    (hL2 : findMsg g.msgs mid2 = some L2)
    (hsucc2 : statusOf (gmail_archive_emails_tool ctx (some g) ids2).result = some (JVal.s "success")) :
    (∃ L3, findMsg (gmail_move_emails_tool ctx (some g) ids name).msgs mid = some L3 ∧
      FolderExactly (folderIdsOf g.labels) tid L3 ∧
      (∀ l, l ∉ folderIdsOf g.labels → (l ∈ L3 ↔ l ∈ L))) ∧
    (∃ L4, findMsg (gmail_archive_emails_tool ctx (some g) ids2).msgs mid2 = some L4 ∧
      FolderFree (folderIdsOf g.labels) L4 ∧
      (∀ l, l ∉ folderIdsOf g.labels → (l ∈ L4 ↔ l ∈ L2))) := by
  rw [gmail_move_emails_tool_eq ctx g ids name tid hauth hname] at hsucc ⊢
  rw [gmail_archive_emails_tool_eq ctx g ids2 hauth] at hsucc2 ⊢
  have hall := (processMove_status (folderIdsOf g.labels) tid name ids g.msgs []).mp hsucc
  have hall2 := (processArchive_status (folderIdsOf g.labels) ids2 g.msgs []).mp hsucc2
  constructor
  · obtain ⟨L3, hf, hnf, _, hfold⟩ :=
      processMove_track (folderIdsOf g.labels) tid name ht ids g.msgs [] mid L hL
    exact ⟨L3, hf, hfold hall hmid, hnf⟩
  · obtain ⟨L4, hf, hnf, _, hfold⟩ :=
      processArchive_track (folderIdsOf g.labels) ids2 g.msgs [] mid2 L2 hL2
    exact ⟨L4, hf, hfold hall2 hmid2, hnf⟩

/-- Witness for C2: moving m1 to INBOX and archiving m2. -/
theorem c2_folder_exclusivity_witness :
    (∃ L3, findMsg (gmail_move_emails_tool ⟨true, none⟩ (some demoSvc) ["m1"] "INBOX").msgs "m1" = some L3 ∧
      FolderExactly (folderIdsOf demoSvc.labels) "L_INBOX" L3 ∧
      (∀ l, l ∉ folderIdsOf demoSvc.labels → (l ∈ L3 ↔ l ∈ ["L_TRASH", "L_IMP"]))) ∧
    (∃ L4, findMsg (gmail_archive_emails_tool ⟨true, none⟩ (some demoSvc) ["m2"]).msgs "m2" = some L4 ∧
      FolderFree (folderIdsOf demoSvc.labels) L4 ∧
      (∀ l, l ∉ folderIdsOf demoSvc.labels → (l ∈ L4 ↔ l ∈ ["L_INBOX", "L_IMP"]))) :=
  c2_folder_exclusivity ⟨true, none⟩ demoSvc ["m1"] ["m2"] "INBOX" "L_INBOX" "m1" "m2"
    ["L_TRASH", "L_IMP"] ["L_INBOX", "L_IMP"]
    rfl rfl (by decide) (by decide) rfl rfl (by decide) rfl rfl

/-- C3.  Idempotence of move: with authentication, a resolvable folder
target and every batch id present, applying move twice leaves the folder
intersection of every batch message at exactly the target after each call,
and the second call excludes the target from every removal list, so
re-issuing the same move issues only no-op modify calls. -/
theorem c3_move_idempotent (ctx : AuthCtx) (g : GmailSvc) (ids : List String) (name tid : String)
    (hauth : ctx.is_authenticated = true)
    (hname : nameToId g.labels name = some tid)
    (ht : tid ∈ folderIdsOf g.labels)
    (hall : ∀ i ∈ ids, (findMsg g.msgs i).isSome = true) :
    MoveIdempotent ctx g ids name tid := by
  unfold MoveIdempotent
  rw [gmail_move_emails_tool_eq ctx g ids name tid hauth hname]
  rw [gmail_move_emails_tool_eq ctx
      ⟨g.labels, (processMove (folderIdsOf g.labels) tid name ids g.msgs []).msgs⟩
      ids name tid hauth hname]
  have hall2 : ∀ i ∈ ids,
      (findMsg (processMove (folderIdsOf g.labels) tid name ids g.msgs []).msgs i).isSome = true := by
    intro i hi
    have h1 := hall i hi
    rw [Option.isSome_iff_exists] at h1
    obtain ⟨L, hL⟩ := h1
    obtain ⟨L2, hf2, _, _, _⟩ :=
      processMove_track (folderIdsOf g.labels) tid name ht ids g.msgs [] i L hL
    rw [hf2]
    rfl
  have hfold1 : ∀ mid ∈ ids,
      ∃ L, findMsg (processMove (folderIdsOf g.labels) tid name ids g.msgs []).msgs mid = some L ∧
        FolderExactly (folderIdsOf g.labels) tid L := by
    intro mid hmid
    have h1 := hall mid hmid
    rw [Option.isSome_iff_exists] at h1
    obtain ⟨L, hL⟩ := h1
    obtain ⟨L2, hf2, _, _, hfold⟩ :=
      processMove_track (folderIdsOf g.labels) tid name ht ids g.msgs [] mid L hL
    exact ⟨L2, hf2, hfold hall hmid⟩
  refine ⟨?_, ?_, hfold1, ?_, ?_⟩
  · exact (processMove_status (folderIdsOf g.labels) tid name ids g.msgs []).mpr hall
  · exact (processMove_status (folderIdsOf g.labels) tid name ids
      (processMove (folderIdsOf g.labels) tid name ids g.msgs []).msgs []).mpr hall2
  · intro mid hmid
    have h1 := hall2 mid hmid
    rw [Option.isSome_iff_exists] at h1
    obtain ⟨L, hL⟩ := h1
    obtain ⟨L2, hf2, _, _, hfold⟩ :=
      processMove_track (folderIdsOf g.labels) tid name ht ids
        (processMove (folderIdsOf g.labels) tid name ids g.msgs []).msgs [] mid L hL
    exact ⟨L2, hf2, hfold hall2 hmid⟩
  · intro c hc
    have hP : ∀ mid L, mid ∈ ids →
        findMsg (processMove (folderIdsOf g.labels) tid name ids g.msgs []).msgs mid = some L →
        FolderExactly (folderIdsOf g.labels) tid L := by
      intro mid L hmid hfind
      obtain ⟨L2, hf2, hP2⟩ := hfold1 mid hmid
      rw [hfind] at hf2
      injection hf2 with he
      rw [he]
      exact hP2
    rcases processMove_removals (folderIdsOf g.labels) tid name ht ids
        (processMove (folderIdsOf g.labels) tid name ids g.msgs []).msgs [] hP c hc with hin | hnil
    · exact absurd hin (List.not_mem_nil c)
    · exact hnil

/-- Witness for C3: moving m1 to INBOX twice. -/
theorem c3_move_idempotent_witness :
    MoveIdempotent ⟨true, none⟩ demoSvc ["m1"] "INBOX" "L_INBOX" :=
  c3_move_idempotent ⟨true, none⟩ demoSvc ["m1"] "INBOX" "L_INBOX"
    rfl rfl (by decide) (by decide)

/-- C8.  UnknownFolder short-circuit: with authentication in place, a move
to a target label absent from the fetched catalog fails with the
unknown-label error before any per-message processing: no modify call is
issued for any id of the batch and the mailbox is untouched. -/
theorem c8_unknown_folder_short_circuit (ctx : AuthCtx) (g : GmailSvc)
    (ids : List String) (name : String)
    (hauth : ctx.is_authenticated = true)
    (hname : nameToId g.labels name = none) :
    (gmail_move_emails_tool ctx (some g) ids name).result =
      [("status", JVal.s "error"), ("error", JVal.s ("Label " ++ name ++ " not found."))] ∧
    (gmail_move_emails_tool ctx (some g) ids name).calls = [] ∧
    (gmail_move_emails_tool ctx (some g) ids name).msgs = g.msgs := by
  refine ⟨?_, ?_, ?_⟩ <;>
    simp [gmail_move_emails_tool, check_access_of_auth ctx hauth, hname]

/-- Witness for C8 at a target absent from the catalog. -/
theorem c8_unknown_folder_short_circuit_witness :
    (gmail_move_emails_tool ⟨true, none⟩ (some demoSvc) ["m1"] "NoSuchLabel").result =
      [("status", JVal.s "error"), ("error", JVal.s ("Label " ++ "NoSuchLabel" ++ " not found."))] ∧
    (gmail_move_emails_tool ⟨true, none⟩ (some demoSvc) ["m1"] "NoSuchLabel").calls = [] ∧
    (gmail_move_emails_tool ⟨true, none⟩ (some demoSvc) ["m1"] "NoSuchLabel").msgs = demoSvc.msgs :=
  c8_unknown_folder_short_circuit ⟨true, none⟩ demoSvc ["m1"] "NoSuchLabel" rfl rfl

/-- C9.  Batch abort on first failure: both batch tools process ids
strictly sequentially in list order, return the first per-message failure,
leave every id after the failing one untouched with no modify call, and
report success only when every id succeeds. -/
theorem c9_batch_abort_on_first_failure (ctx : AuthCtx) (g : GmailSvc)
    (name tid : String) (pre : List String) (bad : String) (post : List String)
    (hauth : ctx.is_authenticated = true)
    (hname : nameToId g.labels name = some tid)
    (hpre : ∀ i ∈ pre, (findMsg g.msgs i).isSome = true)
    (hbad : findMsg g.msgs bad = none) :
    BatchAbortsOnFirstFailure ctx g name pre bad post := by
  unfold BatchAbortsOnFirstFailure
  obtain ⟨hres, ⟨cs, hcalls, hmap⟩, hun⟩ :=
    processMove_abort (folderIdsOf g.labels) tid name bad pre post g.msgs [] hpre hbad
  obtain ⟨hres2, ⟨cs2, hcalls2, hmap2⟩, hun2⟩ :=
    processArchive_abort (folderIdsOf g.labels) bad pre post g.msgs [] hpre hbad
  rw [gmail_move_emails_tool_eq ctx g (pre ++ bad :: post) name tid hauth hname,
    gmail_archive_emails_tool_eq ctx g (pre ++ bad :: post) hauth]
  refine ⟨hres, ?_, ?_, ?_, hres2, ?_, ?_, ?_⟩
  · rw [hcalls]
    simpa using hmap
  · intro i hi
    constructor
    · intro c hc
      rw [hcalls] at hc
      simp only [List.nil_append] at hc
      have hcid : c.id ∈ pre := hmap ▸ List.mem_map_of_mem (fun c => c.id) hc
      exact fun he => hi (he ▸ hcid)
    · exact hun i hi
  · intro ids
    rw [gmail_move_emails_tool_eq ctx g ids name tid hauth hname]
    exact processMove_status (folderIdsOf g.labels) tid name ids g.msgs []
  · rw [hcalls2]
    simpa using hmap2
  · intro i hi
    constructor
    · intro c hc
      rw [hcalls2] at hc
      simp only [List.nil_append] at hc
      have hcid : c.id ∈ pre := hmap2 ▸ List.mem_map_of_mem (fun c => c.id) hc
      exact fun he => hi (he ▸ hcid)
    · exact hun2 i hi
  · intro ids
    rw [gmail_archive_emails_tool_eq ctx g ids hauth]
    exact processArchive_status (folderIdsOf g.labels) ids g.msgs []

/-- Witness for C9: the id mX is absent from the mailbox, m1 precedes it
and m2 follows it. -/
theorem c9_batch_abort_on_first_failure_witness :
    BatchAbortsOnFirstFailure ⟨true, none⟩ demoSvc "INBOX" ["m1"] "mX" ["m2"] :=
  c9_batch_abort_on_first_failure ⟨true, none⟩ demoSvc "INBOX" "L_INBOX" ["m1"] "mX" ["m2"]
    rfl rfl (by decide) rfl
